import Mathlib

/-!
Kernel exponential family estimator (score matching): embedding and properties.

Shallow embedding of `KernelExpFamilyImpl.cpp`.

* `float64_t` arithmetic is embedded as exact arithmetic in a field `K`
  (instantiated with `ℝ` for the statements about derivatives).
* `CMath::exp` is declared in a header that is not part of the embedded file,
  so it is a parameter `exp : K → K` of every function that calls it; the
  derivative statements instantiate it with `Real.exp`.  Where the range of the
  exponential decides a statement (the sign of `kernel_dx`), it is instantiated
  with `float64_exp`, which returns `0` where `float64_t` underflows.
* `SGVector` / `SGMatrix` buffers are entry functions together with their
  dimensions.  A buffer that the source allocates without initialising and then
  fills piecewise is started from a parameter holding the arbitrary initial
  content.
* Loops are left folds over `List.range`, Eigen reductions (`sum`,
  `squaredNorm`, products) are finite sums.
* Index products that size a buffer (`N*D`, `idx*D`) are taken in `ℕ`: the
  buffer of that size has to exist.  The product `N*N` of `compute_xi_norm_2`
  is only a divisor and is formed in 32-bit `index_t` arithmetic.
-/

namespace Shogun

open Finset

/-- Shogun vector: length and entries. -/
structure SGVector (K : Type) where
  vlen : Nat
  vector : Nat → K

/-- Shogun matrix: dimensions and entries, `matrix r c` is row `r`, column `c`. -/
structure SGMatrix (K : Type) where
  num_rows : Nat
  num_cols : Nat
  matrix : Nat → Nat → K

/-- Column `col` of a matrix, as used through `Map<VectorXd>(m.get_column_vector(col), D)`. -/
def SGMatrix.get_column_vector {K : Type} (m : SGMatrix K) (col : Nat) : Nat → K :=
  fun i => m.matrix i col

/-- The estimator instance: training data (one point per column), bandwidth,
regulariser and the fitted coefficients. -/
structure KernelExpFamilyImpl (K : Type) where
  m_data : SGMatrix K
  m_sigma : K
  m_lambda : K
  m_alpha_beta : SGVector K

section Code

variable {K : Type} [Field K]

/-- Eigen `v.sum()` over the first `D` entries. -/
def vsum (D : Nat) (v : Nat → K) : K := ∑ i ∈ range D, v i

/-- Eigen `v.squaredNorm()`, equally `v.array().pow(2).sum()`, over the first `D` entries. -/
def squaredNorm (D : Nat) (v : Nat → K) : K := ∑ i ∈ range D, v i ^ 2

/-- Eigen `M.diagonal() += v`. -/
def diagonalAdd (M : Nat → Nat → K) (v : Nat → K) : Nat → Nat → K :=
  fun i j => if i = j then M i j + v i else M i j

/-- Eigen `M.diagonal() -= v`. -/
def diagonalSub (M : Nat → Nat → K) (v : Nat → K) : Nat → Nat → K :=
  fun i j => if i = j then M i j - v i else M i j

/-- Eigen `M.rowwise() -= v.transpose()`: the row vector is subtracted from every row. -/
def rowwiseSub (M : Nat → Nat → K) (v : Nat → K) : Nat → Nat → K :=
  fun i j => M i j - v j

/-- Eigen `M.colwise() -= v`: the column vector is subtracted from every column. -/
def colwiseSub (M : Nat → Nat → K) (v : Nat → K) : Nat → Nat → K :=
  fun i j => M i j - v i

/-- Eigen `M.colwise().sum()`: entry `j` is the sum of column `j` of a `D × D` matrix. -/
def colwiseSum (D : Nat) (M : Nat → Nat → K) : Nat → K :=
  fun j => ∑ i ∈ range D, M i j

/-- Eigen `M.block(r, c, rows, cols) = src`. -/
def setBlock (M : Nat → Nat → K) (r c rows cols : Nat) (src : Nat → Nat → K) : Nat → Nat → K :=
  fun i j => if r ≤ i ∧ i < r + rows ∧ c ≤ j ∧ j < c + cols then src (i - r) (j - c) else M i j

/-- Eigen `M.block(r, c, rows, cols)` read as a matrix of its own. -/
def getBlock (M : Nat → Nat → K) (r c : Nat) : Nat → Nat → K :=
  fun i j => M (r + i) (c + j)

/-- Eigen `v.segment(start, len) += w`. -/
def segmentAdd (v : Nat → K) (start len : Nat) (w : Nat → K) : Nat → K :=
  fun i => if start ≤ i ∧ i < start + len then v i + w (i - start) else v i

/-- Eigen `v.segment(start, len) = w`. -/
def setSegment (v : Nat → K) (start len : Nat) (w : Nat → K) : Nat → K :=
  fun i => if start ≤ i ∧ i < start + len then w (i - start) else v i

/-- Product of two `index_t` values.  `index_t` is the library's index type, declared
as `int32_t` in its common header (not part of the embedded file); the product of two
of them is a 32-bit signed product, which wraps on overflow. -/
def index_mul (a b : Int) : Int := (a * b + 2 ^ 31) % 2 ^ 32 - 2 ^ 31

/-- Embeds `KernelExpFamilyImpl::get_num_dimensions`. -/
def get_num_dimensions (self : KernelExpFamilyImpl K) : Nat := self.m_data.num_rows

/-- Embeds `KernelExpFamilyImpl::get_num_data`. -/
def get_num_data (self : KernelExpFamilyImpl K) : Nat := self.m_data.num_cols

/-- Embeds `KernelExpFamilyImpl::kernel`. -/
def kernel (exp : K → K) (self : KernelExpFamilyImpl K) (idx_a idx_b : Nat) : K :=
  let D := get_num_dimensions self
  let x := self.m_data.get_column_vector idx_a
  let y := self.m_data.get_column_vector idx_b
  exp (-(squaredNorm D (fun i => x i - y i)) / self.m_sigma)

/-- Embeds `KernelExpFamilyImpl::kernel_dx_dx_dy`. -/
def kernel_dx_dx_dy (exp : K → K) (self : KernelExpFamilyImpl K) (idx_a idx_b : Nat) :
    SGMatrix K :=
  let D := get_num_dimensions self
  let x := self.m_data.get_column_vector idx_a
  let y := self.m_data.get_column_vector idx_b
  let diff : Nat → K := fun i => x i - y i
  let diff2 : Nat → K := fun i => diff i ^ 2
  let k := exp (-(vsum D diff2) / self.m_sigma)
  let r0 : Nat → Nat → K := fun i j => (2 / self.m_sigma) ^ 3 * k * (diff2 i * diff j)
  let r1 : Nat → Nat → K :=
    fun i j => r0 i j - (if i = j then (2 / self.m_sigma) ^ 2 * k * 2 * diff i else 0)
  let r2 := rowwiseSub r1 (fun j => (2 / self.m_sigma) ^ 2 * k * diff j)
  ⟨D, D, r2⟩

/-- Embeds `KernelExpFamilyImpl::kernel_dx_dx_dy_dy`. -/
def kernel_dx_dx_dy_dy (exp : K → K) (self : KernelExpFamilyImpl K) (idx_a idx_b : Nat) :
    SGMatrix K :=
  let D := get_num_dimensions self
  let x := self.m_data.get_column_vector idx_a
  let y := self.m_data.get_column_vector idx_b
  let diff2 : Nat → K := fun i => (x i - y i) ^ 2
  let k := exp (-(vsum D diff2) / self.m_sigma)
  let factor := k * (2 / self.m_sigma) ^ 3
  let r0 : Nat → Nat → K := fun i j => k * (2 / self.m_sigma) ^ 4 * (diff2 i * diff2 j)
  let r1 := diagonalSub r0 (fun i => 6 * factor * diff2 i)
  let diff2s : Nat → K := fun i => diff2 i * factor
  let r2 := rowwiseSub r1 diff2s
  let r3 := colwiseSub r2 diff2s
  let r4 := diagonalAdd r3 (fun i => 2 * diff2s i)
  let factor2 := k * (2 / self.m_sigma) ^ 2
  let r5 := diagonalAdd r4 (fun _ => 2 * factor2)
  let r6 : Nat → Nat → K := fun i j => r5 i j + factor2
  ⟨D, D, r6⟩

/-- Embeds `KernelExpFamilyImpl::kernel_hessian`. -/
def kernel_hessian (exp : K → K) (self : KernelExpFamilyImpl K) (idx_a idx_b : Nat) :
    SGMatrix K :=
  let D := get_num_dimensions self
  let x := self.m_data.get_column_vector idx_a
  let y := self.m_data.get_column_vector idx_b
  let diff : Nat → K := fun i => x i - y i
  let k := exp (-(vsum D (fun i => diff i ^ 2)) / self.m_sigma)
  let r0 : Nat → Nat → K := fun i j => -(diff i * diff j) / self.m_sigma ^ 2 * k * 4
  let r1 := diagonalAdd r0 (fun _ => 2 * k / self.m_sigma)
  ⟨D, D, r1⟩

/-- Embeds `KernelExpFamilyImpl::kernel_dx_dx`. -/
def kernel_dx_dx (exp : K → K) (self : KernelExpFamilyImpl K) (a : SGVector K) (idx_b : Nat) :
    SGVector K :=
  let D := get_num_dimensions self
  let eigen_a := a.vector
  let eigen_b := self.m_data.get_column_vector idx_b
  let sq_diff : Nat → K := fun i => (eigen_a i - eigen_b i) ^ 2
  let k := exp (-(vsum D sq_diff) / self.m_sigma)
  ⟨D, fun i => k * (sq_diff i * (2 / self.m_sigma) ^ 2 - 2 / self.m_sigma)⟩

/-- Embeds `KernelExpFamilyImpl::kernel_dx`. -/
def kernel_dx (exp : K → K) (self : KernelExpFamilyImpl K) (a : SGVector K) (idx_b : Nat) :
    SGVector K :=
  let D := get_num_dimensions self
  let eigen_a := a.vector
  let eigen_b := self.m_data.get_column_vector idx_b
  let diff : Nat → K := fun i => eigen_b i - eigen_a i
  let k := exp (-(squaredNorm D diff) / self.m_sigma)
  ⟨D, fun i => 2 * k * diff i / self.m_sigma⟩

/-- Embeds `KernelExpFamilyImpl::kernel_dx_i_dx_i_dx_j`. -/
def kernel_dx_i_dx_i_dx_j (exp : K → K) (self : KernelExpFamilyImpl K) (a : SGVector K)
    (idx_b : Nat) : SGMatrix K :=
  let D := get_num_dimensions self
  let eigen_a := a.vector
  let eigen_b := self.m_data.get_column_vector idx_b
  let diff : Nat → K := fun i => eigen_b i - eigen_a i
  let sq_diff : Nat → K := fun i => diff i ^ 2
  let k := exp (-(vsum D sq_diff) / self.m_sigma)
  let r0 : Nat → Nat → K := fun i j => sq_diff i * diff j
  let r1 : Nat → Nat → K := fun i j => r0 i j * (k * (2 / self.m_sigma) ^ 3)
  let r2 := rowwiseSub r1 (fun j => k * diff j * (2 / self.m_sigma) ^ 2)
  let r3 := diagonalSub r2 (fun i => 2 * k * diff i * (2 / self.m_sigma) ^ 2)
  ⟨D, D, r3⟩

/-- Embeds `KernelExpFamilyImpl::kernel_dx_i_dx_j`. -/
def kernel_dx_i_dx_j (exp : K → K) (self : KernelExpFamilyImpl K) (a : SGVector K)
    (idx_b : Nat) : SGMatrix K :=
  let D := get_num_dimensions self
  let eigen_a := a.vector
  let eigen_b := self.m_data.get_column_vector idx_b
  let diff : Nat → K := fun i => eigen_b i - eigen_a i
  let k := exp (-(vsum D (fun i => diff i ^ 2)) / self.m_sigma)
  let r0 : Nat → Nat → K := fun i j => diff i * diff j
  let r1 : Nat → Nat → K := fun i j => r0 i j * (k * (2 / self.m_sigma) ^ 2)
  let r2 := diagonalSub r1 (fun _ => k * 2 / self.m_sigma)
  ⟨D, D, r2⟩

/-- Embeds `KernelExpFamilyImpl::kernel_hessian_all`.  `mem` is the content of the
freshly allocated `ND × ND` buffer before the loop writes into it. -/
def kernel_hessian_all (exp : K → K) (self : KernelExpFamilyImpl K) (mem : Nat → Nat → K) :
    SGMatrix K :=
  let D := get_num_dimensions self
  let N := get_num_data self
  let ND := N * D
  let result := (List.range N).foldl (fun res idx_a =>
    (List.range N).foldl (fun res idx_b =>
      let r_start := idx_a * D
      let c_start := idx_b * D
      let h := kernel_hessian exp self idx_a idx_b
      let res1 := setBlock res r_start c_start D D h.matrix
      setBlock res1 c_start r_start D D (getBlock res1 r_start c_start)) res) mem
  ⟨ND, ND, result⟩

/-- Embeds `KernelExpFamilyImpl::compute_h`. -/
def compute_h (exp : K → K) (self : KernelExpFamilyImpl K) : SGVector K :=
  let D := get_num_dimensions self
  let N := get_num_data self
  let ND := N * D
  let h0 : Nat → K := fun _ => 0
  let h1 := (List.range N).foldl (fun h idx_b =>
    (List.range N).foldl (fun h idx_a =>
      let temp := kernel_dx_dx_dy exp self idx_a idx_b
      segmentAdd h (idx_b * D) D (colwiseSum D temp.matrix)) h) h0
  ⟨ND, fun i => h1 i / (N : K)⟩

/-- Embeds `KernelExpFamilyImpl::compute_xi_norm_2`. -/
def compute_xi_norm_2 (exp : K → K) (self : KernelExpFamilyImpl K) : K :=
  let N := get_num_data self
  let D := get_num_dimensions self
  let xi_norm_2 := (List.range N).foldl (fun acc idx_a =>
    (List.range N).foldl (fun acc idx_b =>
      let temp := kernel_dx_dx_dy_dy exp self idx_a idx_b
      acc + ∑ i ∈ range D, ∑ j ∈ range D, temp.matrix i j) acc) (0 : K)
  xi_norm_2 / ((index_mul (N : Int) (N : Int) : Int) : K)

/-- Embeds `KernelExpFamilyImpl::build_system`.  `memA`, `memb` and `memH` are the
contents of the freshly allocated buffers of `A`, `b` and of the matrix of all
Hessians before they are written. -/
def build_system (exp : K → K) (self : KernelExpFamilyImpl K) (memA : Nat → Nat → K)
    (memb : Nat → K) (memH : Nat → Nat → K) : SGMatrix K × SGVector K :=
  let D := get_num_dimensions self
  let N := get_num_data self
  let ND := N * D
  let h := compute_h exp self
  let eigen_h := h.vector
  let all_hessians := kernel_hessian_all exp self memH
  let H := all_hessians.matrix
  let xi_norm_2 := compute_xi_norm_2 exp self
  let A1 : Nat → Nat → K := fun i j =>
    if i = 0 ∧ j = 0 then squaredNorm ND eigen_h / (N : K) + self.m_lambda * xi_norm_2
    else memA i j
  let A2 := setBlock A1 1 1 ND ND
    (fun i j => (∑ l ∈ range ND, H i l * H l j) / (N : K) + self.m_lambda * H i j)
  let row0 : Nat → K :=
    fun i => (∑ l ∈ range ND, H i l * eigen_h l) / (N : K) + self.m_lambda * eigen_h i
  let A3 : Nat → Nat → K := fun i j => if i = 0 then setSegment (A2 0) 1 ND row0 j else A2 i j
  let A4 : Nat → Nat → K :=
    fun i j => if j = 0 then setSegment (fun r => A3 r 0) 1 ND (fun l => A3 0 (1 + l)) i
      else A3 i j
  let b1 : Nat → K := fun i => if i = 0 then -xi_norm_2 else memb i
  let b2 := setSegment b1 1 ND (fun i => -eigen_h i)
  (⟨ND + 1, ND + 1, A4⟩, ⟨ND + 1, b2⟩)

/-- Embeds `KernelExpFamilyImpl::log_pdf`.  The loop state is the pair `(xi, beta_sum)`. -/
def log_pdf (exp : K → K) (self : KernelExpFamilyImpl K) (x : SGVector K) : K :=
  let D := get_num_dimensions self
  let N := get_num_data self
  let eigen_alpha_beta := self.m_alpha_beta.vector
  let st := (List.range N).foldl (fun (st : K × K) idx_a =>
    let k := kernel_dx_dx exp self x idx_a
    let xi := st.1 + vsum D k.vector / (N : K)
    let grad_x_xa := kernel_dx exp self x idx_a
    let beta_sum :=
      st.2 + ∑ i ∈ range D, grad_x_xa.vector i * eigen_alpha_beta (1 + idx_a * D + i)
    (xi, beta_sum)) ((0 : K), (0 : K))
  self.m_alpha_beta.vector 0 * st.1 + st.2

/-- Embeds `KernelExpFamilyImpl::grad`.  The loop state is the pair
`(xi_grad, beta_sum_grad)`. -/
def grad (exp : K → K) (self : KernelExpFamilyImpl K) (x : SGVector K) : SGVector K :=
  let D := get_num_dimensions self
  let N := get_num_data self
  let eigen_alpha_beta := self.m_alpha_beta.vector
  let st := (List.range N).foldl (fun (st : (Nat → K) × (Nat → K)) a =>
    let g := kernel_dx_i_dx_i_dx_j exp self x a
    let xi_grad : Nat → K := fun j => st.1 j + colwiseSum D g.matrix j / (N : K)
    let left_arg_hessian := kernel_dx_i_dx_j exp self x a
    let beta_sum_grad : Nat → K := fun j =>
      st.2 j + ∑ i ∈ range D, left_arg_hessian.matrix j i * eigen_alpha_beta (1 + a * D + i)
    (xi_grad, beta_sum_grad)) ((fun _ => (0 : K)), (fun _ => (0 : K)))
  let xi_grad : Nat → K := fun j => st.1 j * self.m_alpha_beta.vector 0
  ⟨D, fun j => xi_grad j + st.2 j⟩

end Code

/-! ## Reference objects for the statements -/

/-- The Gaussian kernel `k(x, y) = exp(-‖x - y‖² / sigma)` on `D`-vectors, as the
specification writes it. -/
noncomputable def gaussianKernel (sigma : ℝ) (D : Nat) (x y : Nat → ℝ) : ℝ :=
  Real.exp (-(∑ l ∈ range D, (x l - y l) ^ 2) / sigma)

/-- The vector `x` with component `i` replaced by `t`. -/
def SGVector.setEntry {K : Type} (x : SGVector K) (i : Nat) (t : K) : SGVector K :=
  ⟨x.vlen, Function.update x.vector i t⟩

/-- The construction of the matrix of all Hessians that the specification
describes: for every pair `a ≤ b` the block `kernel_hessian(a,b)` is computed once
and written into both the `(a,b)` and the `(b,a)` block. -/
def kernel_hessian_all_spec {K : Type} [Field K] (exp : K → K) (self : KernelExpFamilyImpl K)
    (mem : Nat → Nat → K) : SGMatrix K :=
  let D := get_num_dimensions self
  let N := get_num_data self
  let ND := N * D
  let result := (List.range N).foldl (fun res idx_a =>
    ((List.range N).filter (fun idx_b => idx_a ≤ idx_b)).foldl (fun res idx_b =>
      let h := kernel_hessian exp self idx_a idx_b
      let res1 := setBlock res (idx_a * D) (idx_b * D) D D h.matrix
      setBlock res1 (idx_b * D) (idx_a * D) D D h.matrix) res) mem
  ⟨ND, ND, result⟩

/-- The two-point training set of the specification: `D = 1`, `N = 2`, points `0`
and `1`, bandwidth `2`; regulariser `1` and coefficients `(1, 2, 3)`. -/
def twoPoints (K : Type) [Field K] : KernelExpFamilyImpl K :=
  ⟨⟨1, 2, fun _ c => if c = 1 then 1 else 0⟩, 2, 1, ⟨3, fun i => (i : K) + 1⟩⟩

/-- Embeds the constructor `KernelExpFamilyImpl::KernelExpFamilyImpl`: the three
arguments are stored as they are, nothing is checked and nothing can be thrown; the
coefficient vector is the empty default `SGVector` (it has no entry to read).  The
result type has room for a failure so that statements about construction errors can
be written. -/
def construct {K : Type} [Field K] (data : SGMatrix K) (sigma lambda : K) :
    Except String (KernelExpFamilyImpl K) :=
  Except.ok ⟨data, sigma, lambda, ⟨0, fun _ => 0⟩⟩

/-- The two-point training set (`D = 1`, `N = 2`, points `0` and `1`, bandwidth `2`)
with regulariser `lam` and coefficients `ab`. -/
def twoPointsFit {K : Type} [Field K] (lam : K) (ab : Nat → K) : KernelExpFamilyImpl K :=
  ⟨⟨1, 2, fun _ c => if c = 1 then 1 else 0⟩, 2, lam, ⟨3, ab⟩⟩

/-- A training set of `46341` one-dimensional points, all at `0`, bandwidth `2`:
the smallest number of points whose square exceeds the largest `index_t`. -/
def manyPoints (K : Type) [Field K] : KernelExpFamilyImpl K :=
  ⟨⟨1, 46341, fun _ _ => 0⟩, 2, 1, ⟨46342, fun _ => 0⟩⟩

/-- The matrix `A` of `build_system` as a square matrix of size `ND + 1`. -/
def systemMatrix {K : Type} [Field K] (exp : K → K) (self : KernelExpFamilyImpl K)
    (memA : Nat → Nat → K) (memb : Nat → K) (memH : Nat → Nat → K) :
    Matrix (Fin (get_num_data self * get_num_dimensions self + 1))
      (Fin (get_num_data self * get_num_dimensions self + 1)) K :=
  fun i j => (build_system exp self memA memb memH).1.matrix i j

/-- The right-hand side `b` of `build_system` as a vector of size `ND + 1`. -/
def systemRhs {K : Type} [Field K] (exp : K → K) (self : KernelExpFamilyImpl K)
    (memA : Nat → Nat → K) (memb : Nat → K) (memH : Nat → Nat → K) :
    Fin (get_num_data self * get_num_dimensions self + 1) → K :=
  fun i => (build_system exp self memA memb memH).2.vector i

/-- The `ND × (ND+1)` matrix `M = [h | HessianAll]`: column `0` is `compute_h()`, the
columns after it are those of `kernel_hessian_all()`. -/
def stackedStatistics {K : Type} [Field K] (exp : K → K) (self : KernelExpFamilyImpl K)
    (memH : Nat → Nat → K) :
    Matrix (Fin (get_num_data self * get_num_dimensions self))
      (Fin (get_num_data self * get_num_dimensions self + 1)) K :=
  fun l j => if (j : Nat) = 0 then (compute_h exp self).vector l
    else (kernel_hessian_all exp self memH).matrix l ((j : Nat) - 1)

section Loops

variable {α ι : Type}

/-- A property kept by every step of a loop holds after the loop. -/
theorem foldl_preserves (f : α → ι → α) (P : α → Prop) (l : List ι)
    (hpres : ∀ s y, y ∈ l → P s → P (f s y)) (init : α) (h0 : P init) :
    P (l.foldl f init) := by
  induction l generalizing init with
  | nil => simpa using h0
  | cons y l ih =>
    rw [List.foldl_cons]
    apply ih
    · intro s z hz hs
      exact hpres s z (List.mem_cons_of_mem _ hz) hs
    · exact hpres init y (List.mem_cons_self _ _) h0

/-- A property that one iteration of a loop establishes and every iteration keeps
holds after the loop. -/
theorem foldl_establishes (f : α → ι → α) (P : α → Prop) (l : List ι) (x : ι) (hx : x ∈ l)
    (hest : ∀ s, P (f s x)) (hpres : ∀ s y, y ∈ l → P s → P (f s y)) (init : α) :
    P (l.foldl f init) := by
  induction l generalizing init with
  | nil => cases hx
  | cons y l ih =>
    rw [List.foldl_cons]
    rcases List.mem_cons.mp hx with hxy | hxl
    · subst hxy
      apply foldl_preserves
      · intro s z hz hs
        exact hpres s z (List.mem_cons_of_mem _ hz) hs
      · exact hest init
    · apply ih hxl
      intro s z hz hs
      exact hpres s z (List.mem_cons_of_mem _ hz) hs

/-- A loop that adds `g y` to an observed quantity in iteration `y` adds the sum of
all `g y`. -/
theorem foldl_accumulates {M : Type} [AddCommMonoid M] (f : α → ι → α) (obs : α → M)
    (g : ι → M) (l : List ι) (hstep : ∀ s y, obs (f s y) = obs s + g y) (init : α) :
    obs (l.foldl f init) = obs init + (l.map g).sum := by
  induction l generalizing init with
  | nil => simp
  | cons y l ih =>
    rw [List.foldl_cons, ih, hstep, List.map_cons, List.sum_cons, add_assoc]

/-- The sum over `List.range n` is the sum over `Finset.range n`. -/
theorem list_range_sum {M : Type} [AddCommMonoid M] (g : Nat → M) (n : Nat) :
    ((List.range n).map g).sum = ∑ a ∈ range n, g a := by
  induction n with
  | zero => simp
  | succ n ih => rw [List.range_succ, List.map_append, List.sum_append, ih,
      Finset.sum_range_succ]; simp

end Loops

/-! ## Index arithmetic of the `D`-blocks -/

/-- An index `a*D + i` with `i < D` lies in exactly one `D`-block. -/
theorem block_index_unique (D a b i : Nat) (hi : i < D) (h1 : b * D ≤ a * D + i)
    (h2 : a * D + i < b * D + D) : a = b := by
  rcases Nat.lt_trichotomy a b with h | h | h
  · have := Nat.mul_le_mul_right D (Nat.succ_le_of_lt h)
    rw [Nat.succ_mul] at this
    omega
  · exact h
  · have := Nat.mul_le_mul_right D (Nat.succ_le_of_lt h)
    rw [Nat.succ_mul] at this
    omega

/-- Every index below `N*D` is `a*D + i` for a block `a < N` and an offset `i < D`. -/
theorem block_index_decompose (N D r : Nat) (hr : r < N * D) :
    ∃ a i, a < N ∧ i < D ∧ r = a * D + i := by
  have hD : 0 < D := by
    rcases Nat.eq_zero_or_pos D with h | h
    · subst h; simp at hr
    · exact h
  refine ⟨r / D, r % D, ?_, Nat.mod_lt _ hD, ?_⟩
  · exact Nat.div_lt_of_lt_mul (by rwa [Nat.mul_comm] at hr)
  · rw [Nat.mul_comm]; exact (Nat.div_add_mod r D).symm

/-! ## The matrix of all Hessians -/

section HessianAll

variable {K : Type} [Field K]

/-- Entry `(i,j)` of `kernel_hessian(a,b)` in closed form. -/
theorem kernel_hessian_entry (exp : K → K) (self : KernelExpFamilyImpl K) (a b i j : Nat) :
    (kernel_hessian exp self a b).matrix i j =
      -((self.m_data.matrix i a - self.m_data.matrix i b) *
          (self.m_data.matrix j a - self.m_data.matrix j b)) / self.m_sigma ^ 2 *
        kernel exp self a b * 4 +
      (if i = j then 2 * kernel exp self a b / self.m_sigma else 0) := by
  simp only [kernel_hessian, kernel, diagonalAdd, vsum, squaredNorm,
    SGMatrix.get_column_vector]
  split_ifs <;> ring

/-- The kernel value does not depend on the order of its two points. -/
theorem kernel_comm (exp : K → K) (self : KernelExpFamilyImpl K) (a b : Nat) :
    kernel exp self a b = kernel exp self b a := by
  simp only [kernel, squaredNorm, SGMatrix.get_column_vector]
  congr 3
  apply Finset.sum_congr rfl
  intro l _
  ring

/-- Swapping the two points leaves `kernel_hessian` unchanged. -/
theorem kernel_hessian_swap (exp : K → K) (self : KernelExpFamilyImpl K) (a b i j : Nat) :
    (kernel_hessian exp self b a).matrix i j = (kernel_hessian exp self a b).matrix i j := by
  rw [kernel_hessian_entry, kernel_hessian_entry, kernel_comm exp self b a]
  ring

/-- Each block `kernel_hessian(a,b)` is a symmetric matrix. -/
theorem kernel_hessian_transpose (exp : K → K) (self : KernelExpFamilyImpl K)
    (a b i j : Nat) :
    (kernel_hessian exp self a b).matrix j i = (kernel_hessian exp self a b).matrix i j := by
  rw [kernel_hessian_entry, kernel_hessian_entry]
  by_cases h : i = j
  · subst h; rfl
  · have h2 : ¬ j = i := fun e => h e.symm
    simp only [h, h2, if_false]
    ring

/-- One iteration of the loop of `kernel_hessian_all`, seen at the entry
`(a*D+i, b*D+j)`: the iterations `(a,b)` and `(b,a)` write it, all others leave it. -/
theorem hessian_all_step_entry (exp : K → K) (self : KernelExpFamilyImpl K)
    (res : Nat → Nat → K) (D a2 b2 a b i j : Nat) (hi : i < D) (hj : j < D) :
    setBlock (setBlock res (a2 * D) (b2 * D) D D (kernel_hessian exp self a2 b2).matrix)
        (b2 * D) (a2 * D) D D
        (getBlock (setBlock res (a2 * D) (b2 * D) D D (kernel_hessian exp self a2 b2).matrix)
          (a2 * D) (b2 * D)) (a * D + i) (b * D + j) =
      if (a = b2 ∧ b = a2) ∨ (a = a2 ∧ b = b2) then (kernel_hessian exp self a2 b2).matrix i j
      else res (a * D + i) (b * D + j) := by
  by_cases h1 : a = b2 ∧ b = a2
  · obtain ⟨rfl, rfl⟩ := h1
    have c1 : a * D ≤ a * D + i ∧ a * D + i < a * D + D ∧ b * D ≤ b * D + j ∧
        b * D + j < b * D + D := ⟨by omega, by omega, by omega, by omega⟩
    have c2 : b * D ≤ b * D + (a * D + i - a * D) ∧ b * D + (a * D + i - a * D) < b * D + D ∧
        a * D ≤ a * D + (b * D + j - b * D) ∧ a * D + (b * D + j - b * D) < a * D + D :=
      ⟨by omega, by omega, by omega, by omega⟩
    simp only [setBlock, getBlock, c1, c2, and_self, if_true, true_or]
    have e1 : b * D + (a * D + i - a * D) - b * D = i := by omega
    have e2 : a * D + (b * D + j - b * D) - a * D = j := by omega
    rw [e1, e2]
  · have c1 : ¬ (b2 * D ≤ a * D + i ∧ a * D + i < b2 * D + D ∧ a2 * D ≤ b * D + j ∧
        b * D + j < a2 * D + D) := by
      rintro ⟨p1, p2, p3, p4⟩
      exact h1 ⟨block_index_unique D a b2 i hi p1 p2, block_index_unique D b a2 j hj p3 p4⟩
    by_cases h2 : a = a2 ∧ b = b2
    · obtain ⟨rfl, rfl⟩ := h2
      have c2 : a * D ≤ a * D + i ∧ a * D + i < a * D + D ∧ b * D ≤ b * D + j ∧
          b * D + j < b * D + D := ⟨by omega, by omega, by omega, by omega⟩
      have e1 : a * D + i - a * D = i := by omega
      have e2 : b * D + j - b * D = j := by omega
      simp only [setBlock, c1, c2, and_self, if_true, if_false, or_true, e1, e2]
    · have c2 : ¬ (a2 * D ≤ a * D + i ∧ a * D + i < a2 * D + D ∧ b2 * D ≤ b * D + j ∧
          b * D + j < b2 * D + D) := by
        rintro ⟨p1, p2, p3, p4⟩
        exact h2 ⟨block_index_unique D a a2 i hi p1 p2, block_index_unique D b b2 j hj p3 p4⟩
      simp only [setBlock, c1, c2, h1, h2, if_false, or_self]

/-- One iteration of the construction described by the specification, seen at the
entry `(a*D+i, b*D+j)`. -/
theorem hessian_all_spec_step_entry (exp : K → K) (self : KernelExpFamilyImpl K)
    (res : Nat → Nat → K) (D a2 b2 a b i j : Nat) (hi : i < D) (hj : j < D) :
    setBlock (setBlock res (a2 * D) (b2 * D) D D (kernel_hessian exp self a2 b2).matrix)
        (b2 * D) (a2 * D) D D (kernel_hessian exp self a2 b2).matrix (a * D + i) (b * D + j) =
      if (a = b2 ∧ b = a2) ∨ (a = a2 ∧ b = b2) then (kernel_hessian exp self a2 b2).matrix i j
      else res (a * D + i) (b * D + j) := by
  by_cases h1 : a = b2 ∧ b = a2
  · obtain ⟨rfl, rfl⟩ := h1
    have c1 : a * D ≤ a * D + i ∧ a * D + i < a * D + D ∧ b * D ≤ b * D + j ∧
        b * D + j < b * D + D := ⟨by omega, by omega, by omega, by omega⟩
    have e1 : a * D + i - a * D = i := by omega
    have e2 : b * D + j - b * D = j := by omega
    simp only [setBlock, c1, and_self, if_true, true_or, e1, e2]
  · have c1 : ¬ (b2 * D ≤ a * D + i ∧ a * D + i < b2 * D + D ∧ a2 * D ≤ b * D + j ∧
        b * D + j < a2 * D + D) := by
      rintro ⟨p1, p2, p3, p4⟩
      exact h1 ⟨block_index_unique D a b2 i hi p1 p2, block_index_unique D b a2 j hj p3 p4⟩
    by_cases h2 : a = a2 ∧ b = b2
    · obtain ⟨rfl, rfl⟩ := h2
      have c2 : a * D ≤ a * D + i ∧ a * D + i < a * D + D ∧ b * D ≤ b * D + j ∧
          b * D + j < b * D + D := ⟨by omega, by omega, by omega, by omega⟩
      have e1 : a * D + i - a * D = i := by omega
      have e2 : b * D + j - b * D = j := by omega
      simp only [setBlock, c1, c2, and_self, if_true, if_false, or_true, e1, e2]
    · have c2 : ¬ (a2 * D ≤ a * D + i ∧ a * D + i < a2 * D + D ∧ b2 * D ≤ b * D + j ∧
          b * D + j < b2 * D + D) := by
        rintro ⟨p1, p2, p3, p4⟩
        exact h2 ⟨block_index_unique D a a2 i hi p1 p2, block_index_unique D b b2 j hj p3 p4⟩
      simp only [setBlock, c1, c2, h1, h2, if_false, or_self]

/-- After the loop of `kernel_hessian_all`, the entry `(a*D+i, b*D+j)` holds entry
`(i,j)` of `kernel_hessian(a,b)`, whatever the buffer held before. -/
theorem kernel_hessian_all_entry (exp : K → K) (self : KernelExpFamilyImpl K)
    (mem : Nat → Nat → K) (a b i j : Nat) (ha : a < get_num_data self)
    (hb : b < get_num_data self) (hi : i < get_num_dimensions self)
    (hj : j < get_num_dimensions self) :
    (kernel_hessian_all exp self mem).matrix (a * get_num_dimensions self + i)
        (b * get_num_dimensions self + j) = (kernel_hessian exp self a b).matrix i j := by
  simp only [kernel_hessian_all]
  have hpres : ∀ (a2 b2 : Nat) (s : Nat → Nat → K),
      s (a * get_num_dimensions self + i) (b * get_num_dimensions self + j) =
        (kernel_hessian exp self a b).matrix i j →
      setBlock (setBlock s (a2 * get_num_dimensions self) (b2 * get_num_dimensions self)
          (get_num_dimensions self) (get_num_dimensions self)
          (kernel_hessian exp self a2 b2).matrix)
        (b2 * get_num_dimensions self) (a2 * get_num_dimensions self)
        (get_num_dimensions self) (get_num_dimensions self)
        (getBlock (setBlock s (a2 * get_num_dimensions self) (b2 * get_num_dimensions self)
          (get_num_dimensions self) (get_num_dimensions self)
          (kernel_hessian exp self a2 b2).matrix)
          (a2 * get_num_dimensions self) (b2 * get_num_dimensions self))
        (a * get_num_dimensions self + i) (b * get_num_dimensions self + j) =
        (kernel_hessian exp self a b).matrix i j := by
    intro a2 b2 s hs
    rw [hessian_all_step_entry exp self s _ a2 b2 a b i j hi hj]
    split_ifs with h
    · rcases h with ⟨rfl, rfl⟩ | ⟨rfl, rfl⟩
      · exact kernel_hessian_swap exp self _ _ i j
      · rfl
    · exact hs
  refine foldl_establishes _
    (fun M => M (a * get_num_dimensions self + i) (b * get_num_dimensions self + j) =
      (kernel_hessian exp self a b).matrix i j) _ a (List.mem_range.mpr ha) ?_ ?_ mem
  · intro s
    refine foldl_establishes _
      (fun M => M (a * get_num_dimensions self + i) (b * get_num_dimensions self + j) =
        (kernel_hessian exp self a b).matrix i j) _ b (List.mem_range.mpr hb) ?_ ?_ s
    · intro s2
      show setBlock _ _ _ _ _ _ _ _ = _
      rw [hessian_all_step_entry exp self s2 _ a b a b i j hi hj]
      simp
    · intro s2 y _ hs
      exact hpres a y s2 hs
  · intro s y _ hs
    refine foldl_preserves _
      (fun M => M (a * get_num_dimensions self + i) (b * get_num_dimensions self + j) =
        (kernel_hessian exp self a b).matrix i j) _ ?_ s hs
    intro s2 z _ hs2
    exact hpres y z s2 hs2

/-- After the loop over the pairs `a ≤ b` that the specification describes, the
entry `(a*D+i, b*D+j)` holds entry `(i,j)` of `kernel_hessian(a,b)`. -/
theorem kernel_hessian_all_spec_entry (exp : K → K) (self : KernelExpFamilyImpl K)
    (mem : Nat → Nat → K) (a b i j : Nat) (ha : a < get_num_data self)
    (hb : b < get_num_data self) (hi : i < get_num_dimensions self)
    (hj : j < get_num_dimensions self) :
    (kernel_hessian_all_spec exp self mem).matrix (a * get_num_dimensions self + i)
        (b * get_num_dimensions self + j) = (kernel_hessian exp self a b).matrix i j := by
  simp only [kernel_hessian_all_spec]
  have hpres : ∀ (a2 b2 : Nat) (s : Nat → Nat → K),
      s (a * get_num_dimensions self + i) (b * get_num_dimensions self + j) =
        (kernel_hessian exp self a b).matrix i j →
      setBlock (setBlock s (a2 * get_num_dimensions self) (b2 * get_num_dimensions self)
          (get_num_dimensions self) (get_num_dimensions self)
          (kernel_hessian exp self a2 b2).matrix)
        (b2 * get_num_dimensions self) (a2 * get_num_dimensions self)
        (get_num_dimensions self) (get_num_dimensions self)
        (kernel_hessian exp self a2 b2).matrix
        (a * get_num_dimensions self + i) (b * get_num_dimensions self + j) =
        (kernel_hessian exp self a b).matrix i j := by
    intro a2 b2 s hs
    rw [hessian_all_spec_step_entry exp self s _ a2 b2 a b i j hi hj]
    split_ifs with h
    · rcases h with ⟨rfl, rfl⟩ | ⟨rfl, rfl⟩
      · exact kernel_hessian_swap exp self _ _ i j
      · rfl
    · exact hs
  have hinner : ∀ (a2 : Nat) (s : Nat → Nat → K),
      s (a * get_num_dimensions self + i) (b * get_num_dimensions self + j) =
        (kernel_hessian exp self a b).matrix i j →
      (List.foldl (fun res idx_b =>
        setBlock (setBlock res (a2 * get_num_dimensions self) (idx_b * get_num_dimensions self)
            (get_num_dimensions self) (get_num_dimensions self)
            (kernel_hessian exp self a2 idx_b).matrix)
          (idx_b * get_num_dimensions self) (a2 * get_num_dimensions self)
          (get_num_dimensions self) (get_num_dimensions self)
          (kernel_hessian exp self a2 idx_b).matrix) s
        (List.filter (fun idx_b => decide (a2 ≤ idx_b)) (List.range (get_num_data self))))
        (a * get_num_dimensions self + i) (b * get_num_dimensions self + j) =
        (kernel_hessian exp self a b).matrix i j := by
    intro a2 s hs
    refine foldl_preserves _
      (fun M => M (a * get_num_dimensions self + i) (b * get_num_dimensions self + j) =
        (kernel_hessian exp self a b).matrix i j) _ ?_ s hs
    intro s2 z _ hs2
    exact hpres a2 z s2 hs2
  rcases Nat.le_total a b with hab | hba
  · refine foldl_establishes _
      (fun M => M (a * get_num_dimensions self + i) (b * get_num_dimensions self + j) =
        (kernel_hessian exp self a b).matrix i j) _ a (List.mem_range.mpr ha) ?_ ?_ mem
    · intro s
      refine foldl_establishes _
        (fun M => M (a * get_num_dimensions self + i) (b * get_num_dimensions self + j) =
          (kernel_hessian exp self a b).matrix i j) _ b ?_ ?_ ?_ s
      · exact List.mem_filter.mpr ⟨List.mem_range.mpr hb, by simpa using hab⟩
      · intro s2
        show setBlock _ _ _ _ _ _ _ _ = _
        rw [hessian_all_spec_step_entry exp self s2 _ a b a b i j hi hj]
        simp
      · intro s2 y _ hs
        exact hpres a y s2 hs
    · intro s y _ hs
      exact hinner y s hs
  · refine foldl_establishes _
      (fun M => M (a * get_num_dimensions self + i) (b * get_num_dimensions self + j) =
        (kernel_hessian exp self a b).matrix i j) _ b (List.mem_range.mpr hb) ?_ ?_ mem
    · intro s
      refine foldl_establishes _
        (fun M => M (a * get_num_dimensions self + i) (b * get_num_dimensions self + j) =
          (kernel_hessian exp self a b).matrix i j) _ a ?_ ?_ ?_ s
      · exact List.mem_filter.mpr ⟨List.mem_range.mpr ha, by simpa using hba⟩
      · intro s2
        show setBlock _ _ _ _ _ _ _ _ = _
        rw [hessian_all_spec_step_entry exp self s2 _ b a a b i j hi hj]
        simp only [and_self, true_or, if_true]
        exact kernel_hessian_swap exp self _ _ i j
      · intro s2 y _ hs
        exact hpres b y s2 hs
    · intro s y _ hs
      exact hinner y s hs

/-- The matrix built by `kernel_hessian_all` is symmetric on its `ND × ND` range. -/
theorem kernel_hessian_all_symm (exp : K → K) (self : KernelExpFamilyImpl K)
    (mem : Nat → Nat → K) (r c : Nat)
    (hr : r < get_num_data self * get_num_dimensions self)
    (hc : c < get_num_data self * get_num_dimensions self) :
    (kernel_hessian_all exp self mem).matrix r c =
      (kernel_hessian_all exp self mem).matrix c r := by
  obtain ⟨a, i, ha, hi, rfl⟩ := block_index_decompose _ _ r hr
  obtain ⟨b, j, hb, hj, rfl⟩ := block_index_decompose _ _ c hc
  rw [kernel_hessian_all_entry exp self mem a b i j ha hb hi hj,
    kernel_hessian_all_entry exp self mem b a j i hb ha hj hi,
    kernel_hessian_swap exp self a b j i, kernel_hessian_transpose exp self a b i j]

end HessianAll

/-! ## The vector `h` -/

section ComputeH

variable {K : Type} [Field K]

/-- Adding into the segment of block `b2`, seen at the entry `b*D + j`. -/
theorem segmentAdd_block_entry (h w : Nat → K) (D b2 b j : Nat) (hj : j < D) :
    segmentAdd h (b2 * D) D w (b * D + j) =
      h (b * D + j) + (if b = b2 then w j else 0) := by
  by_cases hb : b = b2
  · subst hb
    have c : b * D ≤ b * D + j ∧ b * D + j < b * D + D := ⟨by omega, by omega⟩
    have e : b * D + j - b * D = j := by omega
    simp only [segmentAdd, c, and_self, if_true, e]
  · have c : ¬ (b2 * D ≤ b * D + j ∧ b * D + j < b2 * D + D) := by
      rintro ⟨p1, p2⟩
      exact hb (block_index_unique D b b2 j hj p1 p2)
    simp only [segmentAdd, c, hb, if_false, add_zero]

/-- The accumulator of `compute_h` after both loops, before the division by `N`. -/
theorem compute_h_accumulator (exp : K → K) (self : KernelExpFamilyImpl K) (b j : Nat)
    (hb : b < get_num_data self) (hj : j < get_num_dimensions self) :
    (List.range (get_num_data self)).foldl (fun h idx_b =>
      (List.range (get_num_data self)).foldl (fun h idx_a =>
        segmentAdd h (idx_b * get_num_dimensions self) (get_num_dimensions self)
          (colwiseSum (get_num_dimensions self) (kernel_dx_dx_dy exp self idx_a idx_b).matrix))
        h) (fun _ => (0 : K)) (b * get_num_dimensions self + j) =
      ∑ a ∈ range (get_num_data self), ∑ i ∈ range (get_num_dimensions self),
        (kernel_dx_dx_dy exp self a b).matrix i j := by
  rw [foldl_accumulates _ (fun h : Nat → K => h (b * get_num_dimensions self + j))
    (fun b2 => ∑ a ∈ range (get_num_data self),
      (if b = b2 then colwiseSum (get_num_dimensions self)
        (kernel_dx_dx_dy exp self a b2).matrix j else 0))]
  · rw [list_range_sum, zero_add, Finset.sum_comm]
    apply Finset.sum_congr rfl
    intro a _
    rw [Finset.sum_ite_eq (range (get_num_data self)) b]
    simp only [Finset.mem_range, hb, if_true, colwiseSum]
  · intro s b2
    rw [foldl_accumulates _ (fun h : Nat → K => h (b * get_num_dimensions self + j))
      (fun a => if b = b2 then colwiseSum (get_num_dimensions self)
        (kernel_dx_dx_dy exp self a b2).matrix j else 0)]
    · rw [list_range_sum]
    · intro s2 a
      exact segmentAdd_block_entry s2 _ _ b2 b j hj

end ComputeH

/-! ## The linear system -/

section BuildSystem

variable {K : Type} [Field K]

/-- Lower-right block of `A`: entry `(i+1, j+1)`. -/
theorem build_system_A_block (exp : K → K) (self : KernelExpFamilyImpl K)
    (memA : Nat → Nat → K) (memb : Nat → K) (memH : Nat → Nat → K) (i j : Nat)
    (hi : i < get_num_data self * get_num_dimensions self)
    (hj : j < get_num_data self * get_num_dimensions self) :
    (build_system exp self memA memb memH).1.matrix (i + 1) (j + 1) =
      (∑ l ∈ range (get_num_data self * get_num_dimensions self),
          (kernel_hessian_all exp self memH).matrix i l *
            (kernel_hessian_all exp self memH).matrix l j) / (get_num_data self : K) +
        self.m_lambda * (kernel_hessian_all exp self memH).matrix i j := by
  have c : 1 ≤ i + 1 ∧ i + 1 < 1 + get_num_data self * get_num_dimensions self ∧
      1 ≤ j + 1 ∧ j + 1 < 1 + get_num_data self * get_num_dimensions self :=
    ⟨by omega, by omega, by omega, by omega⟩
  simp only [build_system, setBlock, c, and_self, if_true, Nat.add_sub_cancel,
    Nat.succ_ne_zero, if_false]

/-- First row of `A`: entry `(0, j+1)`. -/
theorem build_system_A_row (exp : K → K) (self : KernelExpFamilyImpl K)
    (memA : Nat → Nat → K) (memb : Nat → K) (memH : Nat → Nat → K) (j : Nat)
    (hj : j < get_num_data self * get_num_dimensions self) :
    (build_system exp self memA memb memH).1.matrix 0 (j + 1) =
      (∑ l ∈ range (get_num_data self * get_num_dimensions self),
          (kernel_hessian_all exp self memH).matrix j l * (compute_h exp self).vector l) /
          (get_num_data self : K) +
        self.m_lambda * (compute_h exp self).vector j := by
  have c : 1 ≤ j + 1 ∧ j + 1 < 1 + get_num_data self * get_num_dimensions self :=
    ⟨by omega, by omega⟩
  simp only [build_system, setSegment, c, and_self, if_true, Nat.add_sub_cancel,
    Nat.succ_ne_zero, if_false]

/-- First column of `A`: entry `(i+1, 0)` is a copy of entry `(0, i+1)`. -/
theorem build_system_A_col (exp : K → K) (self : KernelExpFamilyImpl K)
    (memA : Nat → Nat → K) (memb : Nat → K) (memH : Nat → Nat → K) (i : Nat)
    (hi : i < get_num_data self * get_num_dimensions self) :
    (build_system exp self memA memb memH).1.matrix (i + 1) 0 =
      (build_system exp self memA memb memH).1.matrix 0 (i + 1) := by
  have c : 1 ≤ i + 1 ∧ i + 1 < 1 + get_num_data self * get_num_dimensions self :=
    ⟨by omega, by omega⟩
  have e : 1 + i = i + 1 := by omega
  simp only [build_system, setSegment, c, and_self, if_true, Nat.add_sub_cancel,
    Nat.succ_ne_zero, if_false, e]

/-- The matrix `A` of `build_system` is symmetric on its `(ND+1) × (ND+1)` range. -/
theorem build_system_A_symm (exp : K → K) (self : KernelExpFamilyImpl K)
    (memA : Nat → Nat → K) (memb : Nat → K) (memH : Nat → Nat → K) (i j : Nat)
    (hi : i ≤ get_num_data self * get_num_dimensions self)
    (hj : j ≤ get_num_data self * get_num_dimensions self) :
    (build_system exp self memA memb memH).1.matrix i j =
      (build_system exp self memA memb memH).1.matrix j i := by
  rcases i with _ | i <;> rcases j with _ | j
  · rfl
  · exact (build_system_A_col exp self memA memb memH j (by omega)).symm
  · exact build_system_A_col exp self memA memb memH i (by omega)
  · rw [build_system_A_block exp self memA memb memH i j (by omega) (by omega),
      build_system_A_block exp self memA memb memH j i (by omega) (by omega),
      kernel_hessian_all_symm exp self memH i j (by omega) (by omega)]
    congr 2
    apply Finset.sum_congr rfl
    intro l hl
    rw [kernel_hessian_all_symm exp self memH i l (by omega) (Finset.mem_range.mp hl),
      kernel_hessian_all_symm exp self memH l j (Finset.mem_range.mp hl) (by omega), mul_comm]

end BuildSystem

/-! ## Derivatives of the Gaussian kernel -/

section Calculus

/-- Derivative of one component of a vector in the component that is varied. -/
theorem hasDerivAt_update_apply (x : Nat → ℝ) (j l : Nat) (t : ℝ) :
    HasDerivAt (fun s => Function.update x j s l) (if l = j then 1 else 0) t := by
  by_cases h : l = j
  · subst h
    simp only [Function.update_same, if_true]
    exact hasDerivAt_id t
  · simp only [Function.update_noteq h, h, if_false]
    exact hasDerivAt_const t _

/-- Derivative of the squared distance in a component of its first point. -/
theorem hasDerivAt_sqdist_left (D : Nat) (x y : Nat → ℝ) (j : Nat) (hj : j < D) (t : ℝ) :
    HasDerivAt (fun s => ∑ l ∈ range D, (Function.update x j s l - y l) ^ 2)
      (2 * (t - y j)) t := by
  have h : HasDerivAt (fun s => ∑ l ∈ range D, (Function.update x j s l - y l) ^ 2)
      (∑ l ∈ range D, 2 * (Function.update x j t l - y l) * (if l = j then 1 else 0)) t :=
    HasDerivAt.sum (fun l _ => by
      have := ((hasDerivAt_update_apply x j l t).sub_const (y l)).pow 2
      convert this using 1
      simp)
  convert h using 1
  simp [Finset.sum_ite_eq', hj]

/-- Derivative of the squared distance in a component of its second point. -/
theorem hasDerivAt_sqdist_right (D : Nat) (x y : Nat → ℝ) (j : Nat) (hj : j < D) (t : ℝ) :
    HasDerivAt (fun s => ∑ l ∈ range D, (x l - Function.update y j s l) ^ 2)
      (-(2 * (x j - t))) t := by
  have h : HasDerivAt (fun s => ∑ l ∈ range D, (x l - Function.update y j s l) ^ 2)
      (∑ l ∈ range D, 2 * (x l - Function.update y j t l) * -(if l = j then 1 else 0)) t :=
    HasDerivAt.sum (fun l _ => by
      have := ((hasDerivAt_update_apply y j l t).const_sub (x l)).pow 2
      convert this using 1
      simp)
  convert h using 1
  simp [Finset.sum_ite_eq', hj]

/-- Derivative of the Gaussian kernel in a component of its first argument. -/
theorem hasDerivAt_gaussianKernel_left (sigma : ℝ) (D : Nat) (x y : Nat → ℝ) (j : Nat)
    (hj : j < D) (t : ℝ) :
    HasDerivAt (fun s => gaussianKernel sigma D (Function.update x j s) y)
      (gaussianKernel sigma D (Function.update x j t) y * (-(2 / sigma) * (t - y j))) t := by
  have h := (((hasDerivAt_sqdist_left D x y j hj t).neg).div_const sigma).exp
  simp only [gaussianKernel]
  convert h using 1
  ring

/-- Derivative of the Gaussian kernel in a component of its second argument. -/
theorem hasDerivAt_gaussianKernel_right (sigma : ℝ) (D : Nat) (x y : Nat → ℝ) (j : Nat)
    (hj : j < D) (t : ℝ) :
    HasDerivAt (fun s => gaussianKernel sigma D x (Function.update y j s))
      (gaussianKernel sigma D x (Function.update y j t) * (2 / sigma * (x j - t))) t := by
  have h := (((hasDerivAt_sqdist_right D x y j hj t).neg).div_const sigma).exp
  simp only [gaussianKernel]
  convert h using 1
  ring

/-- First derivative in `x_i`, as a function of the varied component. -/
theorem deriv_gaussianKernel_left (sigma : ℝ) (D : Nat) (x y : Nat → ℝ) (i : Nat)
    (hi : i < D) :
    deriv (fun t => gaussianKernel sigma D (Function.update x i t) y) =
      fun t => gaussianKernel sigma D (Function.update x i t) y * (-(2 / sigma) * (t - y i)) :=
  funext fun t => (hasDerivAt_gaussianKernel_left sigma D x y i hi t).deriv

/-- Second derivative in `x_i`. -/
theorem hasDerivAt_deriv_gaussianKernel_left (sigma : ℝ) (D : Nat) (x y : Nat → ℝ) (i : Nat)
    (hi : i < D) (t : ℝ) :
    HasDerivAt (deriv (fun t => gaussianKernel sigma D (Function.update x i t) y))
      (gaussianKernel sigma D (Function.update x i t) y *
        ((2 / sigma) ^ 2 * (t - y i) ^ 2 - 2 / sigma)) t := by
  rw [deriv_gaussianKernel_left sigma D x y i hi]
  have h := (hasDerivAt_gaussianKernel_left sigma D x y i hi t).mul
    (((hasDerivAt_id t).sub_const (y i)).const_mul (-(2 / sigma)))
  convert h using 1
  simp only [id]
  ring

/-- Second derivative in `x_i` at the point itself, closed form. -/
theorem deriv_deriv_gaussianKernel_left (sigma : ℝ) (D : Nat) (x y : Nat → ℝ) (i : Nat)
    (hi : i < D) :
    deriv (deriv (fun t => gaussianKernel sigma D (Function.update x i t) y)) (x i) =
      gaussianKernel sigma D x y * ((2 / sigma) ^ 2 * (x i - y i) ^ 2 - 2 / sigma) := by
  rw [(hasDerivAt_deriv_gaussianKernel_left sigma D x y i hi (x i)).deriv,
    Function.update_eq_self]

/-- Derivative in `y_j` of the second derivative in `x_i` (closed form of the latter). -/
theorem hasDerivAt_dxx_right (sigma : ℝ) (D : Nat) (x y : Nat → ℝ) (i j : Nat)
    (hj : j < D) (s : ℝ) :
    HasDerivAt (fun s => gaussianKernel sigma D x (Function.update y j s) *
        ((2 / sigma) ^ 2 * (x i - Function.update y j s i) ^ 2 - 2 / sigma))
      (gaussianKernel sigma D x (Function.update y j s) *
        ((2 / sigma) ^ 3 * (x i - Function.update y j s i) ^ 2 * (x j - s)
          - (2 / sigma) ^ 2 * (x j - s)
          - (2 / sigma) ^ 2 * 2 * (x i - Function.update y j s i) * (if i = j then 1 else 0))) s := by
  have h := (hasDerivAt_gaussianKernel_right sigma D x y j hj s).mul
    (((((hasDerivAt_update_apply y j i s).const_sub (x i)).pow 2).const_mul
      ((2 / sigma) ^ 2)).sub_const (2 / sigma))
  convert h using 1
  push_cast
  ring

/-- Second derivative in `y_j` of the second derivative in `x_i`. -/
theorem hasDerivAt_dxx_right_right (sigma : ℝ) (D : Nat) (x y : Nat → ℝ) (i j : Nat)
    (hj : j < D) (s : ℝ) :
    HasDerivAt (fun s => gaussianKernel sigma D x (Function.update y j s) *
        ((2 / sigma) ^ 3 * (x i - Function.update y j s i) ^ 2 * (x j - s)
          - (2 / sigma) ^ 2 * (x j - s)
          - (2 / sigma) ^ 2 * 2 * (x i - Function.update y j s i) * (if i = j then 1 else 0)))
      (gaussianKernel sigma D x (Function.update y j s) *
        ((2 / sigma) ^ 4 * (x i - Function.update y j s i) ^ 2 * (x j - s) ^ 2
          - (2 / sigma) ^ 3 * (x j - s) ^ 2
          - (2 / sigma) ^ 3 * (x i - Function.update y j s i) ^ 2
          - (2 / sigma) ^ 3 * 4 * (x i - Function.update y j s i) * (x j - s) *
              (if i = j then 1 else 0)
          + (2 / sigma) ^ 2
          + (2 / sigma) ^ 2 * 2 * (if i = j then 1 else 0) ^ 2)) s := by
  have hw := (hasDerivAt_update_apply y j i s).const_sub (x i)
  have hu := (hasDerivAt_id s).const_sub (x j)
  have h := (hasDerivAt_gaussianKernel_right sigma D x y j hj s).mul
    ((((((hw.pow 2).const_mul ((2 / sigma) ^ 3)).mul hu).sub
      (hu.const_mul ((2 / sigma) ^ 2))).sub
      ((hw.const_mul ((2 / sigma) ^ 2 * 2)).mul_const (if i = j then (1 : ℝ) else 0))))
  convert h using 1
  push_cast
  simp only [id]
  ring

/-- Derivative in `y_j` of the first derivative in `x_i` (closed form of the latter). -/
theorem hasDerivAt_dx_right (sigma : ℝ) (D : Nat) (x y : Nat → ℝ) (i j : Nat)
    (hj : j < D) (s : ℝ) :
    HasDerivAt (fun s => gaussianKernel sigma D x (Function.update y j s) *
        (-(2 / sigma) * (x i - Function.update y j s i)))
      (gaussianKernel sigma D x (Function.update y j s) *
        (-((2 / sigma) ^ 2 * (x i - Function.update y j s i) * (x j - s))
          + 2 / sigma * (if i = j then 1 else 0))) s := by
  have h := (hasDerivAt_gaussianKernel_right sigma D x y j hj s).mul
    (((hasDerivAt_update_apply y j i s).const_sub (x i)).const_mul (-(2 / sigma)))
  convert h using 1
  ring

/-- Derivative in `x_j` of the first derivative in `x_i` (closed form of the latter). -/
theorem hasDerivAt_dx_left (sigma : ℝ) (D : Nat) (x y : Nat → ℝ) (i j : Nat)
    (hj : j < D) (t : ℝ) :
    HasDerivAt (fun t => gaussianKernel sigma D (Function.update x j t) y *
        (-(2 / sigma) * (Function.update x j t i - y i)))
      (gaussianKernel sigma D (Function.update x j t) y *
        ((2 / sigma) ^ 2 * (Function.update x j t i - y i) * (t - y j)
          - 2 / sigma * (if i = j then 1 else 0))) t := by
  have h := (hasDerivAt_gaussianKernel_left sigma D x y j hj t).mul
    (((hasDerivAt_update_apply x j i t).sub_const (y i)).const_mul (-(2 / sigma)))
  convert h using 1
  ring

/-- Derivative in `x_j` of the second derivative in `x_i` (closed form of the latter). -/
theorem hasDerivAt_dxx_left (sigma : ℝ) (D : Nat) (x y : Nat → ℝ) (i j : Nat)
    (hj : j < D) (t : ℝ) :
    HasDerivAt (fun t => gaussianKernel sigma D (Function.update x j t) y *
        ((2 / sigma) ^ 2 * (Function.update x j t i - y i) ^ 2 - 2 / sigma))
      (gaussianKernel sigma D (Function.update x j t) y *
        (-((2 / sigma) ^ 3 * (Function.update x j t i - y i) ^ 2 * (t - y j))
          + (2 / sigma) ^ 2 * (t - y j)
          + (2 / sigma) ^ 2 * 2 * (Function.update x j t i - y i) * (if i = j then 1 else 0))) t := by
  have h := (hasDerivAt_gaussianKernel_left sigma D x y j hj t).mul
    (((((hasDerivAt_update_apply x j i t).sub_const (y i)).pow 2).const_mul
      ((2 / sigma) ^ 2)).sub_const (2 / sigma))
  convert h using 1
  push_cast
  ring

end Calculus

/-! ## The closed forms of the code in terms of the Gaussian kernel -/

section ClosedForms

/-- The kernel value on two training points is the Gaussian kernel of the two columns. -/
theorem kernel_eq_gaussianKernel (self : KernelExpFamilyImpl ℝ) (a b : Nat) :
    kernel Real.exp self a b =
      gaussianKernel self.m_sigma (get_num_dimensions self)
        (self.m_data.get_column_vector a) (self.m_data.get_column_vector b) := rfl

/-- The Gaussian kernel is symmetric in its two arguments. -/
theorem gaussianKernel_comm (sigma : ℝ) (D : Nat) (x y : Nat → ℝ) :
    gaussianKernel sigma D x y = gaussianKernel sigma D y x := by
  simp only [gaussianKernel]
  congr 3
  exact Finset.sum_congr rfl (fun l _ => by ring)

/-- Entry `i` of `kernel_dx(x, b)`. -/
theorem kernel_dx_entry (self : KernelExpFamilyImpl ℝ) (x : SGVector ℝ) (b i : Nat) :
    (kernel_dx Real.exp self x b).vector i =
      gaussianKernel self.m_sigma (get_num_dimensions self) x.vector
          (self.m_data.get_column_vector b) *
        (-(2 / self.m_sigma) * (x.vector i - self.m_data.get_column_vector b i)) := by
  rw [gaussianKernel_comm]
  simp only [kernel_dx, gaussianKernel, squaredNorm]
  ring

/-- Entry `i` of `kernel_dx_dx(x, b)`. -/
theorem kernel_dx_dx_entry (self : KernelExpFamilyImpl ℝ) (x : SGVector ℝ) (b i : Nat) :
    (kernel_dx_dx Real.exp self x b).vector i =
      gaussianKernel self.m_sigma (get_num_dimensions self) x.vector
          (self.m_data.get_column_vector b) *
        ((2 / self.m_sigma) ^ 2 * (x.vector i - self.m_data.get_column_vector b i) ^ 2
          - 2 / self.m_sigma) := by
  simp only [kernel_dx_dx, gaussianKernel, vsum]
  ring

/-- Entry `(i,j)` of `kernel_dx_i_dx_j(x, b)`. -/
theorem kernel_dx_i_dx_j_entry (self : KernelExpFamilyImpl ℝ) (x : SGVector ℝ) (b i j : Nat) :
    (kernel_dx_i_dx_j Real.exp self x b).matrix i j =
      gaussianKernel self.m_sigma (get_num_dimensions self) x.vector
          (self.m_data.get_column_vector b) *
        ((2 / self.m_sigma) ^ 2 * (x.vector i - self.m_data.get_column_vector b i) *
            (x.vector j - self.m_data.get_column_vector b j)
          - 2 / self.m_sigma * (if i = j then 1 else 0)) := by
  rw [gaussianKernel_comm]
  simp only [kernel_dx_i_dx_j, gaussianKernel, vsum, diagonalSub]
  split_ifs <;> ring

/-- Entry `(i,j)` of `kernel_dx_i_dx_i_dx_j(x, b)`. -/
theorem kernel_dx_i_dx_i_dx_j_entry (self : KernelExpFamilyImpl ℝ) (x : SGVector ℝ)
    (b i j : Nat) :
    (kernel_dx_i_dx_i_dx_j Real.exp self x b).matrix i j =
      gaussianKernel self.m_sigma (get_num_dimensions self) x.vector
          (self.m_data.get_column_vector b) *
        (-((2 / self.m_sigma) ^ 3 * (x.vector i - self.m_data.get_column_vector b i) ^ 2 *
            (x.vector j - self.m_data.get_column_vector b j))
          + (2 / self.m_sigma) ^ 2 * (x.vector j - self.m_data.get_column_vector b j)
          + (2 / self.m_sigma) ^ 2 * 2 * (x.vector i - self.m_data.get_column_vector b i) *
              (if i = j then 1 else 0)) := by
  rw [gaussianKernel_comm]
  simp only [kernel_dx_i_dx_i_dx_j, gaussianKernel, vsum, diagonalSub, rowwiseSub]
  split_ifs with h
  · subst h; ring
  · ring

/-- Entry `(i,j)` of `kernel_dx_dx_dy(a, b)`. -/
theorem kernel_dx_dx_dy_entry (self : KernelExpFamilyImpl ℝ) (a b i j : Nat) :
    (kernel_dx_dx_dy Real.exp self a b).matrix i j =
      gaussianKernel self.m_sigma (get_num_dimensions self)
          (self.m_data.get_column_vector a) (self.m_data.get_column_vector b) *
        ((2 / self.m_sigma) ^ 3 *
            (self.m_data.get_column_vector a i - self.m_data.get_column_vector b i) ^ 2 *
            (self.m_data.get_column_vector a j - self.m_data.get_column_vector b j)
          - (2 / self.m_sigma) ^ 2 *
            (self.m_data.get_column_vector a j - self.m_data.get_column_vector b j)
          - (2 / self.m_sigma) ^ 2 * 2 *
            (self.m_data.get_column_vector a i - self.m_data.get_column_vector b i) *
              (if i = j then 1 else 0)) := by
  simp only [kernel_dx_dx_dy, gaussianKernel, vsum, rowwiseSub]
  split_ifs <;> ring

/-- Entry `(i,j)` of `kernel_dx_dx_dy_dy(a, b)`. -/
theorem kernel_dx_dx_dy_dy_entry (self : KernelExpFamilyImpl ℝ) (a b i j : Nat) :
    (kernel_dx_dx_dy_dy Real.exp self a b).matrix i j =
      gaussianKernel self.m_sigma (get_num_dimensions self)
          (self.m_data.get_column_vector a) (self.m_data.get_column_vector b) *
        ((2 / self.m_sigma) ^ 4 *
            (self.m_data.get_column_vector a i - self.m_data.get_column_vector b i) ^ 2 *
            (self.m_data.get_column_vector a j - self.m_data.get_column_vector b j) ^ 2
          - (2 / self.m_sigma) ^ 3 *
            (self.m_data.get_column_vector a j - self.m_data.get_column_vector b j) ^ 2
          - (2 / self.m_sigma) ^ 3 *
            (self.m_data.get_column_vector a i - self.m_data.get_column_vector b i) ^ 2
          - (2 / self.m_sigma) ^ 3 * 4 *
            (self.m_data.get_column_vector a i - self.m_data.get_column_vector b i) *
            (self.m_data.get_column_vector a j - self.m_data.get_column_vector b j) *
              (if i = j then 1 else 0)
          + (2 / self.m_sigma) ^ 2
          + (2 / self.m_sigma) ^ 2 * 2 * (if i = j then 1 else 0) ^ 2) := by
  simp only [kernel_dx_dx_dy_dy, gaussianKernel, vsum, rowwiseSub, colwiseSub, diagonalAdd,
    diagonalSub]
  split_ifs with h
  · subst h; ring
  · ring

end ClosedForms

/-! ## The density evaluator -/

section Evaluator

variable {K : Type} [Field K]

/-- The value of `log_pdf` with both loop accumulators written as sums. -/
theorem log_pdf_eq_sum (exp : K → K) (self : KernelExpFamilyImpl K) (x : SGVector K) :
    log_pdf exp self x =
      self.m_alpha_beta.vector 0 *
          (∑ a ∈ range (get_num_data self),
            vsum (get_num_dimensions self) (kernel_dx_dx exp self x a).vector /
              (get_num_data self : K)) +
        ∑ a ∈ range (get_num_data self), ∑ i ∈ range (get_num_dimensions self),
          (kernel_dx exp self x a).vector i *
            self.m_alpha_beta.vector (1 + a * get_num_dimensions self + i) := by
  have h := foldl_accumulates
    (fun (st : K × K) idx_a =>
      (st.1 + vsum (get_num_dimensions self) (kernel_dx_dx exp self x idx_a).vector /
          (get_num_data self : K),
        st.2 + ∑ i ∈ range (get_num_dimensions self), (kernel_dx exp self x idx_a).vector i *
          self.m_alpha_beta.vector (1 + idx_a * get_num_dimensions self + i)))
    (fun st : K × K => st)
    (fun a => (vsum (get_num_dimensions self) (kernel_dx_dx exp self x a).vector /
        (get_num_data self : K),
      ∑ i ∈ range (get_num_dimensions self), (kernel_dx exp self x a).vector i *
        self.m_alpha_beta.vector (1 + a * get_num_dimensions self + i)))
    (List.range (get_num_data self)) (fun s y => rfl) ((0 : K), (0 : K))
  rw [list_range_sum] at h
  simp only [log_pdf]
  rw [h]
  simp only [Prod.fst_add, Prod.snd_add, Prod.fst_sum, Prod.snd_sum, zero_add]

/-- Entry `j` of `grad` with both loop accumulators written as sums. -/
theorem grad_eq_sum (exp : K → K) (self : KernelExpFamilyImpl K) (x : SGVector K) (j : Nat) :
    (grad exp self x).vector j =
      (∑ a ∈ range (get_num_data self),
          colwiseSum (get_num_dimensions self) (kernel_dx_i_dx_i_dx_j exp self x a).matrix j /
            (get_num_data self : K)) * self.m_alpha_beta.vector 0 +
        ∑ a ∈ range (get_num_data self), ∑ i ∈ range (get_num_dimensions self),
          (kernel_dx_i_dx_j exp self x a).matrix j i *
            self.m_alpha_beta.vector (1 + a * get_num_dimensions self + i) := by
  have h := foldl_accumulates
    (fun (st : (Nat → K) × (Nat → K)) a =>
      ((fun j => st.1 j + colwiseSum (get_num_dimensions self)
          (kernel_dx_i_dx_i_dx_j exp self x a).matrix j / (get_num_data self : K)),
        (fun j => st.2 j + ∑ i ∈ range (get_num_dimensions self),
          (kernel_dx_i_dx_j exp self x a).matrix j i *
            self.m_alpha_beta.vector (1 + a * get_num_dimensions self + i))))
    (fun st : (Nat → K) × (Nat → K) => (st.1 j, st.2 j))
    (fun a => (colwiseSum (get_num_dimensions self)
        (kernel_dx_i_dx_i_dx_j exp self x a).matrix j / (get_num_data self : K),
      ∑ i ∈ range (get_num_dimensions self), (kernel_dx_i_dx_j exp self x a).matrix j i *
        self.m_alpha_beta.vector (1 + a * get_num_dimensions self + i)))
    (List.range (get_num_data self)) (fun s y => rfl)
    ((fun _ => (0 : K)), (fun _ => (0 : K)))
  rw [list_range_sum] at h
  have h1 := congrArg Prod.fst h
  have h2 := congrArg Prod.snd h
  simp only [Prod.fst_add, Prod.snd_add, Prod.fst_sum, Prod.snd_sum, zero_add] at h1 h2
  simp only [grad]
  rw [h1, h2]

end Evaluator

section EvaluatorDerivatives

/-- `kernel_dx_i_dx_j(x, b)` is a symmetric matrix. -/
theorem kernel_dx_i_dx_j_transpose (self : KernelExpFamilyImpl ℝ) (x : SGVector ℝ)
    (b i j : Nat) :
    (kernel_dx_i_dx_j Real.exp self x b).matrix j i =
      (kernel_dx_i_dx_j Real.exp self x b).matrix i j := by
  rw [kernel_dx_i_dx_j_entry, kernel_dx_i_dx_j_entry]
  by_cases h : i = j
  · subst h; rfl
  · have h2 : ¬ j = i := fun e => h e.symm
    simp only [h, h2, if_false]
    ring

/-- Component `i` of `kernel_dx(x, b)`, as a function of `x_j`, has derivative entry
`(i,j)` of `kernel_dx_i_dx_j(x, b)`. -/
theorem hasDerivAt_kernel_dx (self : KernelExpFamilyImpl ℝ) (x : SGVector ℝ) (b i j : Nat)
    (hj : j < get_num_dimensions self) :
    HasDerivAt (fun t => (kernel_dx Real.exp self (x.setEntry j t) b).vector i)
      ((kernel_dx_i_dx_j Real.exp self x b).matrix i j) (x.vector j) := by
  have h := hasDerivAt_dx_left self.m_sigma (get_num_dimensions self) x.vector
    (self.m_data.get_column_vector b) i j hj (x.vector j)
  rw [Function.update_eq_self] at h
  rw [kernel_dx_i_dx_j_entry]
  convert h using 1
  funext t
  rw [kernel_dx_entry]
  rfl

/-- Component `i` of `kernel_dx_dx(x, b)`, as a function of `x_j`, has derivative
entry `(i,j)` of `kernel_dx_i_dx_i_dx_j(x, b)`. -/
theorem hasDerivAt_kernel_dx_dx (self : KernelExpFamilyImpl ℝ) (x : SGVector ℝ)
    (b i j : Nat) (hj : j < get_num_dimensions self) :
    HasDerivAt (fun t => (kernel_dx_dx Real.exp self (x.setEntry j t) b).vector i)
      ((kernel_dx_i_dx_i_dx_j Real.exp self x b).matrix i j) (x.vector j) := by
  have h := hasDerivAt_dxx_left self.m_sigma (get_num_dimensions self) x.vector
    (self.m_data.get_column_vector b) i j hj (x.vector j)
  rw [Function.update_eq_self] at h
  rw [kernel_dx_i_dx_i_dx_j_entry]
  convert h using 1
  funext t
  rw [kernel_dx_dx_entry]
  rfl

end EvaluatorDerivatives

/-! ## Properties of the aggregated statistics and of the linear system -/

section AlgebraicProperties

variable {K : Type} [Field K]

/-- C2: the matrix `A` returned by `build_system` equals its own transpose, entry by
entry on the whole range `0 ≤ i, j ≤ N*D` (first row against first column, and the
lower-right block `(H*H)/N + lambda*H` against itself), for every training set,
bandwidth and regulariser and whatever the freshly allocated buffers held. -/
theorem build_system_symmetric (exp : K → K) (self : KernelExpFamilyImpl K)
    (memA : Nat → Nat → K) (memb : Nat → K) (memH : Nat → Nat → K) (i j : Nat)
    (hi : i ≤ get_num_data self * get_num_dimensions self)
    (hj : j ≤ get_num_data self * get_num_dimensions self) :
    (build_system exp self memA memb memH).1.matrix i j =
      (build_system exp self memA memb memH).1.matrix j i :=
  build_system_A_symm exp self memA memb memH i j hi hj

/-- Instance of `build_system_symmetric` on the two-point training set, at the
entries `(1,2)` and `(2,1)` of the lower-right block. -/
theorem build_system_symmetric_witness :
    (build_system Real.exp (twoPoints ℝ) (fun _ _ => 0) (fun _ => 0)
        (fun _ _ => 0)).1.matrix 1 2 =
      (build_system Real.exp (twoPoints ℝ) (fun _ _ => 0) (fun _ => 0)
        (fun _ _ => 0)).1.matrix 2 1 :=
  build_system_symmetric Real.exp (twoPoints ℝ) (fun _ _ => 0) (fun _ => 0)
    (fun _ _ => 0) 1 2 (by decide) (by decide)

/-- C8: the `ND × ND` matrix returned by `kernel_hessian_all` equals its own
transpose: entries `(r,c)` and `(c,r)` agree for all `r, c < N*D`. -/
theorem kernel_hessian_all_symmetric (exp : K → K) (self : KernelExpFamilyImpl K)
    (mem : Nat → Nat → K) (r c : Nat)
    (hr : r < get_num_data self * get_num_dimensions self)
    (hc : c < get_num_data self * get_num_dimensions self) :
    (kernel_hessian_all exp self mem).matrix r c =
      (kernel_hessian_all exp self mem).matrix c r :=
  kernel_hessian_all_symm exp self mem r c hr hc

/-- Instance of `kernel_hessian_all_symmetric` on the two-point training set, at the
off-diagonal entries `(0,1)` and `(1,0)`. -/
theorem kernel_hessian_all_symmetric_witness :
    (kernel_hessian_all Real.exp (twoPoints ℝ) (fun _ _ => 0)).matrix 0 1 =
      (kernel_hessian_all Real.exp (twoPoints ℝ) (fun _ _ => 0)).matrix 1 0 :=
  kernel_hessian_all_symmetric Real.exp (twoPoints ℝ) (fun _ _ => 0) 0 1
    (by decide) (by decide)

/-- C9: for all training indices `a`, `b` (in either order) the `D × D` block of
`kernel_hessian_all()` at rows `a*D ..` and columns `b*D ..` equals
`kernel_hessian(a,b)`; and the loop over all ordered pairs, which writes each block
and copies it untransposed into the mirrored block, yields on the whole `ND × ND`
range the same matrix as computing `kernel_hessian(a,b)` once for each pair `a ≤ b`
and writing it into the `(a,b)` and the `(b,a)` block. -/
theorem kernel_hessian_all_blocks (exp : K → K) (self : KernelExpFamilyImpl K)
    (mem mem2 : Nat → Nat → K) (a b i j r c : Nat) (ha : a < get_num_data self)
    (hb : b < get_num_data self) (hi : i < get_num_dimensions self)
    (hj : j < get_num_dimensions self)
    (hr : r < get_num_data self * get_num_dimensions self)
    (hc : c < get_num_data self * get_num_dimensions self) :
    (kernel_hessian_all exp self mem).num_rows = get_num_data self * get_num_dimensions self ∧
    (kernel_hessian_all exp self mem).num_cols = get_num_data self * get_num_dimensions self ∧
    (kernel_hessian_all exp self mem).matrix (a * get_num_dimensions self + i)
        (b * get_num_dimensions self + j) = (kernel_hessian exp self a b).matrix i j ∧
    (kernel_hessian_all exp self mem).matrix r c =
      (kernel_hessian_all_spec exp self mem2).matrix r c := by
  refine ⟨rfl, rfl, kernel_hessian_all_entry exp self mem a b i j ha hb hi hj, ?_⟩
  obtain ⟨a2, i2, ha2, hi2, rfl⟩ := block_index_decompose _ _ r hr
  obtain ⟨b2, j2, hb2, hj2, rfl⟩ := block_index_decompose _ _ c hc
  rw [kernel_hessian_all_entry exp self mem a2 b2 i2 j2 ha2 hb2 hi2 hj2,
    kernel_hessian_all_spec_entry exp self mem2 a2 b2 i2 j2 ha2 hb2 hi2 hj2]

/-- Instance of `kernel_hessian_all_blocks` on the two-point training set: block
`(1,0)`, below the diagonal, and the entry `(1,0)` of the two constructions. -/
theorem kernel_hessian_all_blocks_witness :
    (kernel_hessian_all Real.exp (twoPoints ℝ) (fun _ _ => 0)).num_rows =
      get_num_data (twoPoints ℝ) * get_num_dimensions (twoPoints ℝ) ∧
    (kernel_hessian_all Real.exp (twoPoints ℝ) (fun _ _ => 0)).num_cols =
      get_num_data (twoPoints ℝ) * get_num_dimensions (twoPoints ℝ) ∧
    (kernel_hessian_all Real.exp (twoPoints ℝ) (fun _ _ => 0)).matrix
        (1 * get_num_dimensions (twoPoints ℝ) + 0) (0 * get_num_dimensions (twoPoints ℝ) + 0) =
      (kernel_hessian Real.exp (twoPoints ℝ) 1 0).matrix 0 0 ∧
    (kernel_hessian_all Real.exp (twoPoints ℝ) (fun _ _ => 0)).matrix 1 0 =
      (kernel_hessian_all_spec Real.exp (twoPoints ℝ) (fun _ _ => 7)).matrix 1 0 :=
  kernel_hessian_all_blocks Real.exp (twoPoints ℝ) (fun _ _ => 0) (fun _ _ => 7)
    1 0 0 0 1 0 (by decide) (by decide) (by decide) (by decide) (by decide) (by decide)

/-- C10: `compute_h()` returns a vector of length `N*D` whose entry `b*D + j`
(`b < N`, `j < D`) is `1/N` times the sum, over all training indices `a`, of the sum
of column `j` of `kernel_dx_dx_dy(a,b)`. -/
theorem compute_h_entries (exp : K → K) (self : KernelExpFamilyImpl K) (b j : Nat)
    (hb : b < get_num_data self) (hj : j < get_num_dimensions self) :
    (compute_h exp self).vlen = get_num_data self * get_num_dimensions self ∧
    (compute_h exp self).vector (b * get_num_dimensions self + j) =
      1 / (get_num_data self : K) *
        ∑ a ∈ range (get_num_data self), ∑ i ∈ range (get_num_dimensions self),
          (kernel_dx_dx_dy exp self a b).matrix i j := by
  refine ⟨rfl, ?_⟩
  simp only [compute_h]
  rw [compute_h_accumulator exp self b j hb hj]
  ring

/-- Instance of `compute_h_entries` on the two-point training set, for the segment
of the second training point. -/
theorem compute_h_entries_witness :
    (compute_h Real.exp (twoPoints ℝ)).vlen =
      get_num_data (twoPoints ℝ) * get_num_dimensions (twoPoints ℝ) ∧
    (compute_h Real.exp (twoPoints ℝ)).vector
        (1 * get_num_dimensions (twoPoints ℝ) + 0) =
      1 / (get_num_data (twoPoints ℝ) : ℝ) *
        ∑ a ∈ range (get_num_data (twoPoints ℝ)),
          ∑ i ∈ range (get_num_dimensions (twoPoints ℝ)),
            (kernel_dx_dx_dy Real.exp (twoPoints ℝ) a 1).matrix i 0 :=
  compute_h_entries Real.exp (twoPoints ℝ) 1 0 (by decide) (by decide)

end AlgebraicProperties

/-! ## The kernel derivatives are the analytic derivatives of the Gaussian kernel -/

section DerivativeProperties

/-- C6: component `i` of `kernel_dx(x,b)` is the partial derivative in `x_i` of the
Gaussian kernel `k(x,y) = exp(-‖x-y‖²/sigma)` at `(x, x_b)`, and equals
`2*k*(x_b - x)_i/sigma`. -/
theorem kernel_dx_is_gradient (self : KernelExpFamilyImpl ℝ) (x : SGVector ℝ) (b i : Nat)
    (hi : i < get_num_dimensions self) :
    HasDerivAt
      (fun t => gaussianKernel self.m_sigma (get_num_dimensions self)
        (Function.update x.vector i t) (self.m_data.get_column_vector b))
      ((kernel_dx Real.exp self x b).vector i) (x.vector i) ∧
    (kernel_dx Real.exp self x b).vector i =
      2 * gaussianKernel self.m_sigma (get_num_dimensions self) x.vector
          (self.m_data.get_column_vector b) *
        (self.m_data.get_column_vector b i - x.vector i) / self.m_sigma := by
  constructor
  · have h := hasDerivAt_gaussianKernel_left self.m_sigma (get_num_dimensions self) x.vector
      (self.m_data.get_column_vector b) i hi (x.vector i)
    rw [Function.update_eq_self] at h
    rw [kernel_dx_entry]
    exact h
  · rw [kernel_dx_entry]
    ring

/-- Instance of `kernel_dx_is_gradient`: query `0.5` between the training points
`0` and `1`, against the first training point. -/
theorem kernel_dx_is_gradient_witness :
    HasDerivAt
      (fun t => gaussianKernel (twoPoints ℝ).m_sigma (get_num_dimensions (twoPoints ℝ))
        (Function.update (SGVector.mk 1 (fun _ => (1 / 2 : ℝ))).vector 0 t)
        ((twoPoints ℝ).m_data.get_column_vector 0))
      ((kernel_dx Real.exp (twoPoints ℝ) (SGVector.mk 1 (fun _ => (1 / 2 : ℝ))) 0).vector 0)
      ((SGVector.mk 1 (fun _ => (1 / 2 : ℝ))).vector 0) ∧
    (kernel_dx Real.exp (twoPoints ℝ) (SGVector.mk 1 (fun _ => (1 / 2 : ℝ))) 0).vector 0 =
      2 * gaussianKernel (twoPoints ℝ).m_sigma (get_num_dimensions (twoPoints ℝ))
          (SGVector.mk 1 (fun _ => (1 / 2 : ℝ))).vector
          ((twoPoints ℝ).m_data.get_column_vector 0) *
        ((twoPoints ℝ).m_data.get_column_vector 0 0 -
          (SGVector.mk 1 (fun _ => (1 / 2 : ℝ))).vector 0) / (twoPoints ℝ).m_sigma :=
  kernel_dx_is_gradient (twoPoints ℝ) (SGVector.mk 1 (fun _ => (1 / 2 : ℝ))) 0 0 (by decide)

/-- C7: component `i` of `kernel_dx_dx(x,b)` is the second partial derivative in `x_i`
of the Gaussian kernel at `(x, x_b)`, and it is the derivative in `x_i` of component
`i` of `kernel_dx`. -/
theorem kernel_dx_dx_is_second_derivative (self : KernelExpFamilyImpl ℝ) (x : SGVector ℝ)
    (b i : Nat) (hi : i < get_num_dimensions self) :
    HasDerivAt
      (deriv (fun t => gaussianKernel self.m_sigma (get_num_dimensions self)
        (Function.update x.vector i t) (self.m_data.get_column_vector b)))
      ((kernel_dx_dx Real.exp self x b).vector i) (x.vector i) ∧
    HasDerivAt (fun t => (kernel_dx Real.exp self (x.setEntry i t) b).vector i)
      ((kernel_dx_dx Real.exp self x b).vector i) (x.vector i) := by
  have h := hasDerivAt_deriv_gaussianKernel_left self.m_sigma (get_num_dimensions self)
    x.vector (self.m_data.get_column_vector b) i hi (x.vector i)
  rw [Function.update_eq_self] at h
  rw [kernel_dx_dx_entry]
  refine ⟨h, ?_⟩
  rw [deriv_gaussianKernel_left self.m_sigma (get_num_dimensions self) x.vector
    (self.m_data.get_column_vector b) i hi] at h
  convert h using 1
  funext t
  rw [kernel_dx_entry]
  simp only [SGVector.setEntry, Function.update_same]

/-- Instance of `kernel_dx_dx_is_second_derivative`: query `0.5` against the second
training point of the two-point training set. -/
theorem kernel_dx_dx_is_second_derivative_witness :
    HasDerivAt
      (deriv (fun t => gaussianKernel (twoPoints ℝ).m_sigma (get_num_dimensions (twoPoints ℝ))
        (Function.update (SGVector.mk 1 (fun _ => (1 / 2 : ℝ))).vector 0 t)
        ((twoPoints ℝ).m_data.get_column_vector 1)))
      ((kernel_dx_dx Real.exp (twoPoints ℝ) (SGVector.mk 1 (fun _ => (1 / 2 : ℝ))) 1).vector 0)
      ((SGVector.mk 1 (fun _ => (1 / 2 : ℝ))).vector 0) ∧
    HasDerivAt
      (fun t => (kernel_dx Real.exp (twoPoints ℝ)
        ((SGVector.mk 1 (fun _ => (1 / 2 : ℝ))).setEntry 0 t) 1).vector 0)
      ((kernel_dx_dx Real.exp (twoPoints ℝ) (SGVector.mk 1 (fun _ => (1 / 2 : ℝ))) 1).vector 0)
      ((SGVector.mk 1 (fun _ => (1 / 2 : ℝ))).vector 0) :=
  kernel_dx_dx_is_second_derivative (twoPoints ℝ) (SGVector.mk 1 (fun _ => (1 / 2 : ℝ))) 1 0
    (by decide)

/-- C5: entry `(i,j)` of `kernel_hessian(a,b)` is the mixed second derivative
`d²k/(dx_i dy_j)` of the Gaussian kernel at `(x_a, x_b)`, and equals
`-4k/sigma² * diff_i*diff_j + (2k/sigma) * [i = j]` with `diff = x_a - x_b`. -/
theorem kernel_hessian_is_mixed_derivative (self : KernelExpFamilyImpl ℝ) (a b i j : Nat)
    (hi : i < get_num_dimensions self) (hj : j < get_num_dimensions self) :
    HasDerivAt
      (fun s => deriv (fun t => gaussianKernel self.m_sigma (get_num_dimensions self)
          (Function.update (self.m_data.get_column_vector a) i t)
          (Function.update (self.m_data.get_column_vector b) j s))
        (self.m_data.get_column_vector a i))
      ((kernel_hessian Real.exp self a b).matrix i j) (self.m_data.get_column_vector b j) ∧
    (kernel_hessian Real.exp self a b).matrix i j =
      -4 * gaussianKernel self.m_sigma (get_num_dimensions self)
            (self.m_data.get_column_vector a) (self.m_data.get_column_vector b) /
          self.m_sigma ^ 2 *
          ((self.m_data.get_column_vector a i - self.m_data.get_column_vector b i) *
            (self.m_data.get_column_vector a j - self.m_data.get_column_vector b j)) +
        2 * gaussianKernel self.m_sigma (get_num_dimensions self)
            (self.m_data.get_column_vector a) (self.m_data.get_column_vector b) /
          self.m_sigma * (if i = j then 1 else 0) := by
  have hclosed : (kernel_hessian Real.exp self a b).matrix i j =
      gaussianKernel self.m_sigma (get_num_dimensions self)
          (self.m_data.get_column_vector a) (self.m_data.get_column_vector b) *
        (-((2 / self.m_sigma) ^ 2 *
            (self.m_data.get_column_vector a i - self.m_data.get_column_vector b i) *
            (self.m_data.get_column_vector a j - self.m_data.get_column_vector b j))
          + 2 / self.m_sigma * (if i = j then 1 else 0)) := by
    rw [kernel_hessian_entry, kernel_eq_gaussianKernel]
    simp only [SGMatrix.get_column_vector]
    split_ifs <;> ring
  constructor
  · have hfun : (fun s => deriv (fun t => gaussianKernel self.m_sigma (get_num_dimensions self)
          (Function.update (self.m_data.get_column_vector a) i t)
          (Function.update (self.m_data.get_column_vector b) j s))
        (self.m_data.get_column_vector a i)) =
        fun s => gaussianKernel self.m_sigma (get_num_dimensions self)
            (self.m_data.get_column_vector a)
            (Function.update (self.m_data.get_column_vector b) j s) *
          (-(2 / self.m_sigma) * (self.m_data.get_column_vector a i -
            Function.update (self.m_data.get_column_vector b) j s i)) := by
      funext s
      rw [(hasDerivAt_gaussianKernel_left self.m_sigma (get_num_dimensions self)
        (self.m_data.get_column_vector a)
        (Function.update (self.m_data.get_column_vector b) j s) i hi
        (self.m_data.get_column_vector a i)).deriv, Function.update_eq_self]
    have h := hasDerivAt_dx_right self.m_sigma (get_num_dimensions self)
      (self.m_data.get_column_vector a) (self.m_data.get_column_vector b) i j hj
      (self.m_data.get_column_vector b j)
    rw [Function.update_eq_self] at h
    rw [hfun, hclosed]
    exact h
  · rw [hclosed]
    ring

/-- Instance of `kernel_hessian_is_mixed_derivative` on the two-point training set,
for the pair of the two distinct points. -/
theorem kernel_hessian_is_mixed_derivative_witness :
    HasDerivAt
      (fun s => deriv (fun t => gaussianKernel (twoPoints ℝ).m_sigma
          (get_num_dimensions (twoPoints ℝ))
          (Function.update ((twoPoints ℝ).m_data.get_column_vector 0) 0 t)
          (Function.update ((twoPoints ℝ).m_data.get_column_vector 1) 0 s))
        ((twoPoints ℝ).m_data.get_column_vector 0 0))
      ((kernel_hessian Real.exp (twoPoints ℝ) 0 1).matrix 0 0)
      ((twoPoints ℝ).m_data.get_column_vector 1 0) ∧
    (kernel_hessian Real.exp (twoPoints ℝ) 0 1).matrix 0 0 =
      -4 * gaussianKernel (twoPoints ℝ).m_sigma (get_num_dimensions (twoPoints ℝ))
            ((twoPoints ℝ).m_data.get_column_vector 0)
            ((twoPoints ℝ).m_data.get_column_vector 1) /
          (twoPoints ℝ).m_sigma ^ 2 *
          (((twoPoints ℝ).m_data.get_column_vector 0 0 -
              (twoPoints ℝ).m_data.get_column_vector 1 0) *
            ((twoPoints ℝ).m_data.get_column_vector 0 0 -
              (twoPoints ℝ).m_data.get_column_vector 1 0)) +
        2 * gaussianKernel (twoPoints ℝ).m_sigma (get_num_dimensions (twoPoints ℝ))
            ((twoPoints ℝ).m_data.get_column_vector 0)
            ((twoPoints ℝ).m_data.get_column_vector 1) /
          (twoPoints ℝ).m_sigma * (if 0 = 0 then 1 else 0) :=
  kernel_hessian_is_mixed_derivative (twoPoints ℝ) 0 1 0 0 (by decide) (by decide)

/-- The second derivative in `x_i` of the Gaussian kernel at `(x_a, y)`, as a function
of component `j` of `y`, in closed form. -/
theorem dxx_as_function_of_right (self : KernelExpFamilyImpl ℝ) (a b i j : Nat)
    (hi : i < get_num_dimensions self) :
    (fun s => deriv (deriv (fun t => gaussianKernel self.m_sigma (get_num_dimensions self)
          (Function.update (self.m_data.get_column_vector a) i t)
          (Function.update (self.m_data.get_column_vector b) j s)))
        (self.m_data.get_column_vector a i)) =
      fun s => gaussianKernel self.m_sigma (get_num_dimensions self)
          (self.m_data.get_column_vector a)
          (Function.update (self.m_data.get_column_vector b) j s) *
        ((2 / self.m_sigma) ^ 2 * (self.m_data.get_column_vector a i -
            Function.update (self.m_data.get_column_vector b) j s i) ^ 2 - 2 / self.m_sigma) := by
  funext s
  exact deriv_deriv_gaussianKernel_left self.m_sigma (get_num_dimensions self)
    (self.m_data.get_column_vector a) (Function.update (self.m_data.get_column_vector b) j s)
    i hi

/-- C4: entry `(i,j)` of `kernel_dx_dx_dy(a,b)` is the partial derivative in `y_j` of
the second partial derivative in `x_i` of the Gaussian kernel
`k(x,y) = exp(-‖x-y‖²/sigma)`, evaluated at `(x_a, x_b)`. -/
theorem kernel_dx_dx_dy_is_third_derivative (self : KernelExpFamilyImpl ℝ) (a b i j : Nat)
    (hi : i < get_num_dimensions self) (hj : j < get_num_dimensions self) :
    HasDerivAt
      (fun s => deriv (deriv (fun t => gaussianKernel self.m_sigma (get_num_dimensions self)
          (Function.update (self.m_data.get_column_vector a) i t)
          (Function.update (self.m_data.get_column_vector b) j s)))
        (self.m_data.get_column_vector a i))
      ((kernel_dx_dx_dy Real.exp self a b).matrix i j)
      (self.m_data.get_column_vector b j) := by
  have h := hasDerivAt_dxx_right self.m_sigma (get_num_dimensions self)
    (self.m_data.get_column_vector a) (self.m_data.get_column_vector b) i j hj
    (self.m_data.get_column_vector b j)
  rw [Function.update_eq_self] at h
  rw [dxx_as_function_of_right self a b i j hi, kernel_dx_dx_dy_entry]
  exact h

/-- Instance of `kernel_dx_dx_dy_is_third_derivative` on the two-point training set,
for the pair of the two distinct points. -/
theorem kernel_dx_dx_dy_is_third_derivative_witness :
    HasDerivAt
      (fun s => deriv (deriv (fun t => gaussianKernel (twoPoints ℝ).m_sigma
          (get_num_dimensions (twoPoints ℝ))
          (Function.update ((twoPoints ℝ).m_data.get_column_vector 0) 0 t)
          (Function.update ((twoPoints ℝ).m_data.get_column_vector 1) 0 s)))
        ((twoPoints ℝ).m_data.get_column_vector 0 0))
      ((kernel_dx_dx_dy Real.exp (twoPoints ℝ) 0 1).matrix 0 0)
      ((twoPoints ℝ).m_data.get_column_vector 1 0) :=
  kernel_dx_dx_dy_is_third_derivative (twoPoints ℝ) 0 1 0 0 (by decide) (by decide)

/-- C3: entry `(i,j)` of `kernel_dx_dx_dy_dy(a,b)` is the second partial derivative in
`y_j` of the second partial derivative in `x_i` of the Gaussian kernel
`k(x,y) = exp(-‖x-y‖²/sigma)`, evaluated at `(x_a, x_b)`, for all `i` and `j`
including `i = j`. -/
theorem kernel_dx_dx_dy_dy_is_fourth_derivative (self : KernelExpFamilyImpl ℝ)
    (a b i j : Nat) (hi : i < get_num_dimensions self) (hj : j < get_num_dimensions self) :
    HasDerivAt
      (deriv (fun s => deriv (deriv (fun t =>
          gaussianKernel self.m_sigma (get_num_dimensions self)
            (Function.update (self.m_data.get_column_vector a) i t)
            (Function.update (self.m_data.get_column_vector b) j s)))
        (self.m_data.get_column_vector a i)))
      ((kernel_dx_dx_dy_dy Real.exp self a b).matrix i j)
      (self.m_data.get_column_vector b j) := by
  have hfun : deriv (fun s => deriv (deriv (fun t =>
          gaussianKernel self.m_sigma (get_num_dimensions self)
            (Function.update (self.m_data.get_column_vector a) i t)
            (Function.update (self.m_data.get_column_vector b) j s)))
        (self.m_data.get_column_vector a i)) =
      fun s => gaussianKernel self.m_sigma (get_num_dimensions self)
          (self.m_data.get_column_vector a)
          (Function.update (self.m_data.get_column_vector b) j s) *
        ((2 / self.m_sigma) ^ 3 * (self.m_data.get_column_vector a i -
              Function.update (self.m_data.get_column_vector b) j s i) ^ 2 *
            (self.m_data.get_column_vector a j - s)
          - (2 / self.m_sigma) ^ 2 * (self.m_data.get_column_vector a j - s)
          - (2 / self.m_sigma) ^ 2 * 2 * (self.m_data.get_column_vector a i -
              Function.update (self.m_data.get_column_vector b) j s i) *
            (if i = j then 1 else 0)) := by
    rw [dxx_as_function_of_right self a b i j hi]
    funext s
    exact (hasDerivAt_dxx_right self.m_sigma (get_num_dimensions self)
      (self.m_data.get_column_vector a) (self.m_data.get_column_vector b) i j hj s).deriv
  have h := hasDerivAt_dxx_right_right self.m_sigma (get_num_dimensions self)
    (self.m_data.get_column_vector a) (self.m_data.get_column_vector b) i j hj
    (self.m_data.get_column_vector b j)
  rw [Function.update_eq_self] at h
  rw [hfun, kernel_dx_dx_dy_dy_entry]
  exact h

/-- Instance of `kernel_dx_dx_dy_dy_is_fourth_derivative` on the two-point training
set: the diagonal entry `i = j = 0` for the pair of the two distinct points. -/
theorem kernel_dx_dx_dy_dy_is_fourth_derivative_witness :
    HasDerivAt
      (deriv (fun s => deriv (deriv (fun t =>
          gaussianKernel (twoPoints ℝ).m_sigma (get_num_dimensions (twoPoints ℝ))
            (Function.update ((twoPoints ℝ).m_data.get_column_vector 0) 0 t)
            (Function.update ((twoPoints ℝ).m_data.get_column_vector 1) 0 s)))
        ((twoPoints ℝ).m_data.get_column_vector 0 0)))
      ((kernel_dx_dx_dy_dy Real.exp (twoPoints ℝ) 0 1).matrix 0 0)
      ((twoPoints ℝ).m_data.get_column_vector 1 0) :=
  kernel_dx_dx_dy_dy_is_fourth_derivative (twoPoints ℝ) 0 1 0 0 (by decide) (by decide)

/-- C1: for every training set, bandwidth, coefficient vector and query `x`, component
`j` of `grad(x)` is the partial derivative of `log_pdf` with respect to `x_j` at `x`. -/
theorem grad_is_gradient_of_log_pdf (self : KernelExpFamilyImpl ℝ) (x : SGVector ℝ) (j : Nat)
    (hj : j < get_num_dimensions self) :
    HasDerivAt (fun t => log_pdf Real.exp self (x.setEntry j t))
      ((grad Real.exp self x).vector j) (x.vector j) := by
  have hxi : HasDerivAt
      (fun t => ∑ a ∈ range (get_num_data self),
        vsum (get_num_dimensions self) (kernel_dx_dx Real.exp self (x.setEntry j t) a).vector /
          (get_num_data self : ℝ))
      (∑ a ∈ range (get_num_data self),
        colwiseSum (get_num_dimensions self)
          (kernel_dx_i_dx_i_dx_j Real.exp self x a).matrix j / (get_num_data self : ℝ))
      (x.vector j) :=
    HasDerivAt.sum (fun a _ =>
      (HasDerivAt.sum (fun i _ => hasDerivAt_kernel_dx_dx self x a i j hj)).div_const _)
  have hbeta : HasDerivAt
      (fun t => ∑ a ∈ range (get_num_data self), ∑ i ∈ range (get_num_dimensions self),
        (kernel_dx Real.exp self (x.setEntry j t) a).vector i *
          self.m_alpha_beta.vector (1 + a * get_num_dimensions self + i))
      (∑ a ∈ range (get_num_data self), ∑ i ∈ range (get_num_dimensions self),
        (kernel_dx_i_dx_j Real.exp self x a).matrix j i *
          self.m_alpha_beta.vector (1 + a * get_num_dimensions self + i))
      (x.vector j) :=
    HasDerivAt.sum (fun a _ => HasDerivAt.sum (fun i _ => by
      rw [kernel_dx_i_dx_j_transpose self x a i j]
      exact (hasDerivAt_kernel_dx self x a i j hj).mul_const _))
  have h := (hxi.const_mul (self.m_alpha_beta.vector 0)).add hbeta
  rw [grad_eq_sum]
  convert h using 1
  · funext t
    exact log_pdf_eq_sum Real.exp self (x.setEntry j t)
  · ring

/-- Instance of `grad_is_gradient_of_log_pdf`: the two-point training set with
coefficients `(1, 2, 3)` and the query `0.5`. -/
theorem grad_is_gradient_of_log_pdf_witness :
    HasDerivAt
      (fun t => log_pdf Real.exp (twoPoints ℝ)
        ((SGVector.mk 1 (fun _ => (1 / 2 : ℝ))).setEntry 0 t))
      ((grad Real.exp (twoPoints ℝ) (SGVector.mk 1 (fun _ => (1 / 2 : ℝ)))).vector 0)
      ((SGVector.mk 1 (fun _ => (1 / 2 : ℝ))).vector 0) :=
  grad_is_gradient_of_log_pdf (twoPoints ℝ) (SGVector.mk 1 (fun _ => (1 / 2 : ℝ))) 0
    (by decide)

end DerivativeProperties

/-! ## The assembled system, the evaluator and the kernel value -/

section SystemAndEvaluator

variable {K : Type} [Field K]

/-- First entry of the right-hand side `b`. -/
theorem build_system_b_zero (exp : K → K) (self : KernelExpFamilyImpl K)
    (memA : Nat → Nat → K) (memb : Nat → K) (memH : Nat → Nat → K) :
    (build_system exp self memA memb memH).2.vector 0 = -compute_xi_norm_2 exp self := by
  simp only [build_system, setSegment]
  have c : ¬ (1 ≤ 0 ∧ 0 < 1 + get_num_data self * get_num_dimensions self) := by omega
  simp only [c, if_false, if_true]

/-- Entry `j+1` of the right-hand side `b`. -/
theorem build_system_b_succ (exp : K → K) (self : KernelExpFamilyImpl K)
    (memA : Nat → Nat → K) (memb : Nat → K) (memH : Nat → Nat → K) (j : Nat)
    (hj : j < get_num_data self * get_num_dimensions self) :
    (build_system exp self memA memb memH).2.vector (j + 1) = -(compute_h exp self).vector j := by
  have c : 1 ≤ j + 1 ∧ j + 1 < 1 + get_num_data self * get_num_dimensions self :=
    ⟨by omega, by omega⟩
  simp only [build_system, setSegment, c, and_self, if_true, Nat.add_sub_cancel]

/-- Entry `(0,0)` of `A`. -/
theorem build_system_A_zero (exp : K → K) (self : KernelExpFamilyImpl K)
    (memA : Nat → Nat → K) (memb : Nat → K) (memH : Nat → Nat → K) :
    (build_system exp self memA memb memH).1.matrix 0 0 =
      (∑ l ∈ range (get_num_data self * get_num_dimensions self),
          (compute_h exp self).vector l ^ 2) / (get_num_data self : K) +
        self.m_lambda * compute_xi_norm_2 exp self := by
  have c : ¬ (1 ≤ 0 ∧ 0 < 1 + get_num_data self * get_num_dimensions self) := by omega
  simp only [build_system, setSegment, setBlock, squaredNorm, c, if_false, if_true,
    and_self]
  split_ifs with h
  · omega
  · rfl

/-- C12: `build_system` returns the `(ND+1) × (ND+1)` matrix `A` and the vector `b` of
length `ND+1` with `A[0][0] = ‖h‖²/N + lambda*xi`, `A[1:,1:] = (H*H)/N + lambda*H`,
`A[0,1:] = A[1:,0] = (H*h)/N + lambda*h`, `b[0] = -xi` and `b[1:] = -h`, where
`h = compute_h()`, `H = kernel_hessian_all()` and `xi = compute_xi_norm_2()`. -/
theorem build_system_entries (exp : K → K) (self : KernelExpFamilyImpl K)
    (memA : Nat → Nat → K) (memb : Nat → K) (memH : Nat → Nat → K) (i j : Nat)
    (hi : i < get_num_data self * get_num_dimensions self)
    (hj : j < get_num_data self * get_num_dimensions self) :
    (build_system exp self memA memb memH).1.num_rows =
        get_num_data self * get_num_dimensions self + 1 ∧
    (build_system exp self memA memb memH).1.num_cols =
        get_num_data self * get_num_dimensions self + 1 ∧
    (build_system exp self memA memb memH).2.vlen =
        get_num_data self * get_num_dimensions self + 1 ∧
    (build_system exp self memA memb memH).1.matrix 0 0 =
      (∑ l ∈ range (get_num_data self * get_num_dimensions self),
          (compute_h exp self).vector l ^ 2) / (get_num_data self : K) +
        self.m_lambda * compute_xi_norm_2 exp self ∧
    (build_system exp self memA memb memH).1.matrix (i + 1) (j + 1) =
      (∑ l ∈ range (get_num_data self * get_num_dimensions self),
          (kernel_hessian_all exp self memH).matrix i l *
            (kernel_hessian_all exp self memH).matrix l j) / (get_num_data self : K) +
        self.m_lambda * (kernel_hessian_all exp self memH).matrix i j ∧
    (build_system exp self memA memb memH).1.matrix 0 (j + 1) =
      (∑ l ∈ range (get_num_data self * get_num_dimensions self),
          (kernel_hessian_all exp self memH).matrix j l * (compute_h exp self).vector l) /
          (get_num_data self : K) +
        self.m_lambda * (compute_h exp self).vector j ∧
    (build_system exp self memA memb memH).1.matrix (j + 1) 0 =
      (∑ l ∈ range (get_num_data self * get_num_dimensions self),
          (kernel_hessian_all exp self memH).matrix j l * (compute_h exp self).vector l) /
          (get_num_data self : K) +
        self.m_lambda * (compute_h exp self).vector j ∧
    (build_system exp self memA memb memH).2.vector 0 = -compute_xi_norm_2 exp self ∧
    (build_system exp self memA memb memH).2.vector (j + 1) =
      -(compute_h exp self).vector j := by
  refine ⟨rfl, rfl, rfl, build_system_A_zero exp self memA memb memH,
    build_system_A_block exp self memA memb memH i j hi hj,
    build_system_A_row exp self memA memb memH j hj, ?_,
    build_system_b_zero exp self memA memb memH,
    build_system_b_succ exp self memA memb memH j hj⟩
  rw [build_system_A_col exp self memA memb memH j hj]
  exact build_system_A_row exp self memA memb memH j hj

/-- C13: `log_pdf(x) = alpha * xi + beta_sum` with `alpha` element 0 of the
coefficients, `xi = (1/N) * Σ_a Σ_i kernel_dx_dx(x,a)[i]` and
`beta_sum = Σ_a Σ_i kernel_dx(x,a)[i] * alpha_beta[1 + a*D + i]`. -/
theorem log_pdf_formula (exp : K → K) (self : KernelExpFamilyImpl K) (x : SGVector K) :
    log_pdf exp self x =
      self.m_alpha_beta.vector 0 *
          (1 / (get_num_data self : K) *
            ∑ a ∈ range (get_num_data self), ∑ i ∈ range (get_num_dimensions self),
              (kernel_dx_dx exp self x a).vector i) +
        ∑ a ∈ range (get_num_data self), ∑ i ∈ range (get_num_dimensions self),
          (kernel_dx exp self x a).vector i *
            self.m_alpha_beta.vector (1 + a * get_num_dimensions self + i) := by
  rw [log_pdf_eq_sum]
  simp only [vsum]
  rw [← Finset.sum_div]
  ring

/-- C20: when the query is the training point `x_a`, the query-form derivatives are
the negatives of the index-form mixed derivatives, entry by entry:
`kernel_dx_i_dx_j(x_a, b) = -kernel_hessian(a,b)` and
`kernel_dx_i_dx_i_dx_j(x_a, b) = -kernel_dx_dx_dy(a,b)`. -/
theorem query_forms_negate_index_forms (exp : K → K) (self : KernelExpFamilyImpl K)
    (a b i j : Nat) :
    (kernel_dx_i_dx_j exp self
        ⟨get_num_dimensions self, self.m_data.get_column_vector a⟩ b).matrix i j =
      -(kernel_hessian exp self a b).matrix i j ∧
    (kernel_dx_i_dx_i_dx_j exp self
        ⟨get_num_dimensions self, self.m_data.get_column_vector a⟩ b).matrix i j =
      -(kernel_dx_dx_dy exp self a b).matrix i j := by
  have hk : (∑ l ∈ range (get_num_dimensions self),
        (self.m_data.get_column_vector b l - self.m_data.get_column_vector a l) ^ 2) =
      ∑ l ∈ range (get_num_dimensions self),
        (self.m_data.get_column_vector a l - self.m_data.get_column_vector b l) ^ 2 :=
    Finset.sum_congr rfl (fun l _ => by ring)
  constructor
  · simp only [kernel_dx_i_dx_j, kernel_hessian, vsum, diagonalSub, diagonalAdd, hk]
    split_ifs <;> ring
  · simp only [kernel_dx_i_dx_i_dx_j, kernel_dx_dx_dy, vsum, diagonalSub, rowwiseSub, hk]
    split_ifs with h
    · subst h; ring
    · ring

end SystemAndEvaluator

section KernelValue

/-- C14: the kernel value is symmetric in its two training indices, and
`kernel(a,a) = 1`. -/
theorem kernel_symmetric_unit_diagonal (self : KernelExpFamilyImpl ℝ) (a b : Nat) :
    kernel Real.exp self a b = kernel Real.exp self b a ∧ kernel Real.exp self a a = 1 := by
  refine ⟨kernel_comm Real.exp self a b, ?_⟩
  simp [kernel, squaredNorm]

/-- Below `-746` the exact exponential is smaller than `2^(-1075)`, half the smallest
positive `float64_t`. -/
theorem exp_below_underflow_threshold (t : ℝ) (ht : t < -746) :
    Real.exp t < ((2 : ℝ) ^ 1075)⁻¹ := by
  have hlog : ((1075 : ℕ) : ℝ) * Real.log 2 < 746 := by
    have := Real.log_two_lt_d9
    push_cast
    linarith
  have hpow : (2 : ℝ) ^ 1075 < Real.exp 746 := by
    calc (2 : ℝ) ^ 1075 = Real.exp (Real.log 2) ^ 1075 := by
          rw [Real.exp_log (by norm_num : (0 : ℝ) < 2)]
      _ = Real.exp (((1075 : ℕ) : ℝ) * Real.log 2) := (Real.exp_nat_mul _ _).symm
      _ < Real.exp 746 := Real.exp_lt_exp.mpr hlog
  have h1 : Real.exp t < Real.exp (-746) := Real.exp_lt_exp.mpr ht
  have h2 : Real.exp (-746) = (Real.exp 746)⁻¹ := Real.exp_neg 746
  have h3 : (Real.exp 746)⁻¹ < ((2 : ℝ) ^ 1075)⁻¹ :=
    inv_strictAnti₀ (by positivity) hpow
  linarith

end KernelValue

/-! ## The scalar `xi_norm_2`, the constructor and the sum of `h` -/

section XiNorm

variable {K : Type} [Field K]

/-- The value of `compute_xi_norm_2`: the accumulated sum over all ordered pairs,
divided by the `index_t` product `N*N`. -/
theorem compute_xi_norm_2_eq_sum (exp : K → K) (self : KernelExpFamilyImpl K) :
    compute_xi_norm_2 exp self =
      (∑ a ∈ range (get_num_data self), ∑ b ∈ range (get_num_data self),
        ∑ i ∈ range (get_num_dimensions self), ∑ j ∈ range (get_num_dimensions self),
          (kernel_dx_dx_dy_dy exp self a b).matrix i j) /
        ((index_mul (get_num_data self : Int) (get_num_data self : Int) : Int) : K) := by
  have hinner : ∀ (a : Nat) (s : K),
      (List.range (get_num_data self)).foldl (fun acc idx_b =>
        acc + ∑ i ∈ range (get_num_dimensions self), ∑ j ∈ range (get_num_dimensions self),
          (kernel_dx_dx_dy_dy exp self a idx_b).matrix i j) s =
      s + ∑ b ∈ range (get_num_data self), ∑ i ∈ range (get_num_dimensions self),
        ∑ j ∈ range (get_num_dimensions self), (kernel_dx_dx_dy_dy exp self a b).matrix i j := by
    intro a s
    have h := foldl_accumulates
      (fun (acc : K) idx_b =>
        acc + ∑ i ∈ range (get_num_dimensions self), ∑ j ∈ range (get_num_dimensions self),
          (kernel_dx_dx_dy_dy exp self a idx_b).matrix i j)
      (fun acc : K => acc)
      (fun b => ∑ i ∈ range (get_num_dimensions self), ∑ j ∈ range (get_num_dimensions self),
        (kernel_dx_dx_dy_dy exp self a b).matrix i j)
      (List.range (get_num_data self)) (fun s y => rfl) s
    rw [list_range_sum] at h
    exact h
  have houter := foldl_accumulates
    (fun (acc : K) idx_a =>
      (List.range (get_num_data self)).foldl (fun acc idx_b =>
        acc + ∑ i ∈ range (get_num_dimensions self), ∑ j ∈ range (get_num_dimensions self),
          (kernel_dx_dx_dy_dy exp self idx_a idx_b).matrix i j) acc)
    (fun acc : K => acc)
    (fun a => ∑ b ∈ range (get_num_data self), ∑ i ∈ range (get_num_dimensions self),
      ∑ j ∈ range (get_num_dimensions self), (kernel_dx_dx_dy_dy exp self a b).matrix i j)
    (List.range (get_num_data self)) (fun s a => hinner a s) (0 : K)
  rw [list_range_sum, zero_add] at houter
  simp only [compute_xi_norm_2]
  rw [houter]

/-- The `index_t` product `N*N` is the square of `N` as long as `N ≤ 46340`. -/
theorem index_mul_self_of_le (N : Nat) (hN : N ≤ 46340) :
    index_mul (N : Int) (N : Int) = (N : Int) ^ 2 := by
  have h1 : (N : Int) * (N : Int) ≤ 46340 * 46340 :=
    mul_le_mul (by exact_mod_cast hN) (by exact_mod_cast hN) (by positivity) (by norm_num)
  have h0 : (0 : Int) ≤ (N : Int) * (N : Int) := by positivity
  unfold index_mul
  rw [Int.emod_eq_of_lt (by omega) (by omega)]
  ring

/-- Swapping the two training points negates `kernel_dx_dx_dy`. -/
theorem kernel_dx_dx_dy_antisymm (exp : K → K) (self : KernelExpFamilyImpl K)
    (a b i j : Nat) :
    (kernel_dx_dx_dy exp self b a).matrix i j = -(kernel_dx_dx_dy exp self a b).matrix i j := by
  have hk : (∑ l ∈ range (get_num_dimensions self),
        (self.m_data.get_column_vector b l - self.m_data.get_column_vector a l) ^ 2) =
      ∑ l ∈ range (get_num_dimensions self),
        (self.m_data.get_column_vector a l - self.m_data.get_column_vector b l) ^ 2 :=
    Finset.sum_congr rfl (fun l _ => by ring)
  simp only [kernel_dx_dx_dy, vsum, rowwiseSub, hk]
  split_ifs <;> ring

/-- On a single training point `kernel_dx_dx_dy` is the zero matrix. -/
theorem kernel_dx_dx_dy_self (exp : K → K) (self : KernelExpFamilyImpl K) (a i j : Nat) :
    (kernel_dx_dx_dy exp self a a).matrix i j = 0 := by
  simp [kernel_dx_dx_dy, rowwiseSub]

end XiNorm

section XiNormClaims

/-- Every entry of `kernel_dx_dx_dy_dy` on the training set `manyPoints` is `3`. -/
theorem manyPoints_fourth_derivative (a b : Nat) :
    (kernel_dx_dx_dy_dy Real.exp (manyPoints ℝ) a b).matrix 0 0 = 3 := by
  simp [kernel_dx_dx_dy_dy, manyPoints, vsum, diagonalAdd, diagonalSub, rowwiseSub, colwiseSub,
    get_num_dimensions, SGMatrix.get_column_vector]
  norm_num

/-- C11: on a training set of `N = 46341` points (which `index_t` holds) the sum of all
entries of `kernel_dx_dx_dy_dy` over all ordered pairs, divided by `N²`, is `3`, but
`compute_xi_norm_2()` returns a negative number: the divisor it forms as the
`index_t` product `N*N` is `-2147479015`, not `N² = 2147488281`. -/
theorem compute_xi_norm_2_divisor_overflows :
    get_num_data (manyPoints ℝ) = 46341 ∧
    index_mul (46341 : Int) (46341 : Int) = -2147479015 ∧
    (∑ a ∈ range (get_num_data (manyPoints ℝ)), ∑ b ∈ range (get_num_data (manyPoints ℝ)),
      ∑ i ∈ range (get_num_dimensions (manyPoints ℝ)),
        ∑ j ∈ range (get_num_dimensions (manyPoints ℝ)),
          (kernel_dx_dx_dy_dy Real.exp (manyPoints ℝ) a b).matrix i j) /
        ((get_num_data (manyPoints ℝ) : ℝ) ^ 2) = 3 ∧
    compute_xi_norm_2 Real.exp (manyPoints ℝ) = -(3 * 2147488281) / 2147479015 := by
  have hsum : (∑ a ∈ range (get_num_data (manyPoints ℝ)),
      ∑ b ∈ range (get_num_data (manyPoints ℝ)),
      ∑ i ∈ range (get_num_dimensions (manyPoints ℝ)),
        ∑ j ∈ range (get_num_dimensions (manyPoints ℝ)),
          (kernel_dx_dx_dy_dy Real.exp (manyPoints ℝ) a b).matrix i j) = 3 * 2147488281 := by
    have hD : get_num_dimensions (manyPoints ℝ) = 1 := rfl
    have hN : get_num_data (manyPoints ℝ) = 46341 := rfl
    rw [hD, hN]
    simp only [Finset.sum_range_one, manyPoints_fourth_derivative, Finset.sum_const,
      Finset.card_range, nsmul_eq_mul]
    norm_num
  have hmul : index_mul (46341 : Int) (46341 : Int) = -2147479015 := by
    norm_num [index_mul]
  refine ⟨rfl, hmul, ?_, ?_⟩
  · rw [hsum]
    have hN : get_num_data (manyPoints ℝ) = 46341 := rfl
    rw [hN]
    norm_num
  · rw [compute_xi_norm_2_eq_sum, hsum]
    have hN : ((get_num_data (manyPoints ℝ) : Nat) : Int) = 46341 := rfl
    rw [hN, hmul]
    norm_num

/-- C17, as stated, fails: constructing with `sigma = -1` and `lambda = -1` returns
no error. -/
theorem construct_accepts_invalid_configuration :
    ((-1 : ℚ) ≤ 0 ∨ (-1 : ℚ) < 0) ∧
    ¬ ∃ e, construct (twoPoints ℚ).m_data (-1 : ℚ) (-1 : ℚ) = Except.error e := by
  refine ⟨Or.inl (by norm_num), ?_⟩
  rintro ⟨e, he⟩
  simp [construct] at he

/-- C17, amended: construction never fails; for every data matrix, bandwidth and
regulariser (also `sigma ≤ 0` or `lambda < 0`) the constructor returns an instance
that stores the three arguments unchanged. -/
theorem construct_always_succeeds {K : Type} [Field K] (data : SGMatrix K) (sigma lambda : K) :
    ∃ inst, construct data sigma lambda = Except.ok inst ∧ inst.m_data = data ∧
      inst.m_sigma = sigma ∧ inst.m_lambda = lambda :=
  ⟨_, rfl, rfl, rfl, rfl⟩

/-- C19: the `N` segments of `compute_h()` sum to the zero vector, because swapping
the two points negates `kernel_dx_dx_dy`, which is the zero matrix on a single
point. -/
theorem compute_h_segments_sum_zero (exp : ℝ → ℝ) (self : KernelExpFamilyImpl ℝ) (j : Nat)
    (hj : j < get_num_dimensions self) :
    ∑ b ∈ range (get_num_data self),
        (compute_h exp self).vector (b * get_num_dimensions self + j) = 0 ∧
    (∀ a b i l : Nat, (kernel_dx_dx_dy exp self b a).matrix i l =
      -(kernel_dx_dx_dy exp self a b).matrix i l) ∧
    (∀ a i l : Nat, (kernel_dx_dx_dy exp self a a).matrix i l = 0) := by
  refine ⟨?_, kernel_dx_dx_dy_antisymm exp self, kernel_dx_dx_dy_self exp self⟩
  have hentry : ∀ b ∈ range (get_num_data self),
      (compute_h exp self).vector (b * get_num_dimensions self + j) =
        (∑ a ∈ range (get_num_data self), ∑ i ∈ range (get_num_dimensions self),
          (kernel_dx_dx_dy exp self a b).matrix i j) / (get_num_data self : ℝ) := by
    intro b hb
    simp only [compute_h]
    rw [compute_h_accumulator exp self b j (Finset.mem_range.mp hb) hj]
  rw [Finset.sum_congr rfl hentry, ← Finset.sum_div]
  have hX : (∑ b ∈ range (get_num_data self), ∑ a ∈ range (get_num_data self),
        ∑ i ∈ range (get_num_dimensions self), (kernel_dx_dx_dy exp self a b).matrix i j) =
      -(∑ b ∈ range (get_num_data self), ∑ a ∈ range (get_num_data self),
        ∑ i ∈ range (get_num_dimensions self), (kernel_dx_dx_dy exp self a b).matrix i j) := by
    calc (∑ b ∈ range (get_num_data self), ∑ a ∈ range (get_num_data self),
          ∑ i ∈ range (get_num_dimensions self), (kernel_dx_dx_dy exp self a b).matrix i j)
        = ∑ b ∈ range (get_num_data self), ∑ a ∈ range (get_num_data self),
          ∑ i ∈ range (get_num_dimensions self),
            -(kernel_dx_dx_dy exp self b a).matrix i j := by
          refine Finset.sum_congr rfl (fun b _ => Finset.sum_congr rfl (fun a _ =>
            Finset.sum_congr rfl (fun i _ => ?_)))
          rw [kernel_dx_dx_dy_antisymm exp self a b i j, neg_neg]
      _ = -(∑ b ∈ range (get_num_data self), ∑ a ∈ range (get_num_data self),
          ∑ i ∈ range (get_num_dimensions self), (kernel_dx_dx_dy exp self b a).matrix i j) := by
          simp only [Finset.sum_neg_distrib]
      _ = -(∑ b ∈ range (get_num_data self), ∑ a ∈ range (get_num_data self),
          ∑ i ∈ range (get_num_dimensions self), (kernel_dx_dx_dy exp self a b).matrix i j) := by
          rw [Finset.sum_comm]
  have h0 : (∑ b ∈ range (get_num_data self), ∑ a ∈ range (get_num_data self),
        ∑ i ∈ range (get_num_dimensions self), (kernel_dx_dx_dy exp self a b).matrix i j) = 0 := by
    linarith
  rw [h0, zero_div]

/-- Instance of `compute_h_segments_sum_zero` on the two-point training set. -/
theorem compute_h_segments_sum_zero_witness :
    ∑ b ∈ range (get_num_data (twoPoints ℝ)),
        (compute_h Real.exp (twoPoints ℝ)).vector (b * get_num_dimensions (twoPoints ℝ) + 0) = 0 ∧
    (∀ a b i l : Nat, (kernel_dx_dx_dy Real.exp (twoPoints ℝ) b a).matrix i l =
      -(kernel_dx_dx_dy Real.exp (twoPoints ℝ) a b).matrix i l) ∧
    (∀ a i l : Nat, (kernel_dx_dx_dy Real.exp (twoPoints ℝ) a a).matrix i l = 0) :=
  compute_h_segments_sum_zero Real.exp (twoPoints ℝ) 0 (by decide)

/-- Instance of `build_system_entries` on the two-point training set, at the entry
`(1,2)` of `A` and the entry `2` of `b`. -/
theorem build_system_entries_witness :
    (build_system Real.exp (twoPoints ℝ) (fun _ _ => 0) (fun _ => 0) (fun _ _ => 0)).1.num_rows =
        get_num_data (twoPoints ℝ) * get_num_dimensions (twoPoints ℝ) + 1 ∧
    (build_system Real.exp (twoPoints ℝ) (fun _ _ => 0) (fun _ => 0) (fun _ _ => 0)).1.num_cols =
        get_num_data (twoPoints ℝ) * get_num_dimensions (twoPoints ℝ) + 1 ∧
    (build_system Real.exp (twoPoints ℝ) (fun _ _ => 0) (fun _ => 0) (fun _ _ => 0)).2.vlen =
        get_num_data (twoPoints ℝ) * get_num_dimensions (twoPoints ℝ) + 1 ∧
    (build_system Real.exp (twoPoints ℝ) (fun _ _ => 0) (fun _ => 0) (fun _ _ => 0)).1.matrix 0 0 =
      (∑ l ∈ range (get_num_data (twoPoints ℝ) * get_num_dimensions (twoPoints ℝ)),
          (compute_h Real.exp (twoPoints ℝ)).vector l ^ 2) / (get_num_data (twoPoints ℝ) : ℝ) +
        (twoPoints ℝ).m_lambda * compute_xi_norm_2 Real.exp (twoPoints ℝ) ∧
    (build_system Real.exp (twoPoints ℝ) (fun _ _ => 0) (fun _ => 0)
        (fun _ _ => 0)).1.matrix (0 + 1) (1 + 1) =
      (∑ l ∈ range (get_num_data (twoPoints ℝ) * get_num_dimensions (twoPoints ℝ)),
          (kernel_hessian_all Real.exp (twoPoints ℝ) (fun _ _ => 0)).matrix 0 l *
            (kernel_hessian_all Real.exp (twoPoints ℝ) (fun _ _ => 0)).matrix l 1) /
          (get_num_data (twoPoints ℝ) : ℝ) +
        (twoPoints ℝ).m_lambda *
          (kernel_hessian_all Real.exp (twoPoints ℝ) (fun _ _ => 0)).matrix 0 1 ∧
    (build_system Real.exp (twoPoints ℝ) (fun _ _ => 0) (fun _ => 0)
        (fun _ _ => 0)).1.matrix 0 (1 + 1) =
      (∑ l ∈ range (get_num_data (twoPoints ℝ) * get_num_dimensions (twoPoints ℝ)),
          (kernel_hessian_all Real.exp (twoPoints ℝ) (fun _ _ => 0)).matrix 1 l *
            (compute_h Real.exp (twoPoints ℝ)).vector l) / (get_num_data (twoPoints ℝ) : ℝ) +
        (twoPoints ℝ).m_lambda * (compute_h Real.exp (twoPoints ℝ)).vector 1 ∧
    (build_system Real.exp (twoPoints ℝ) (fun _ _ => 0) (fun _ => 0)
        (fun _ _ => 0)).1.matrix (1 + 1) 0 =
      (∑ l ∈ range (get_num_data (twoPoints ℝ) * get_num_dimensions (twoPoints ℝ)),
          (kernel_hessian_all Real.exp (twoPoints ℝ) (fun _ _ => 0)).matrix 1 l *
            (compute_h Real.exp (twoPoints ℝ)).vector l) / (get_num_data (twoPoints ℝ) : ℝ) +
        (twoPoints ℝ).m_lambda * (compute_h Real.exp (twoPoints ℝ)).vector 1 ∧
    (build_system Real.exp (twoPoints ℝ) (fun _ _ => 0) (fun _ => 0) (fun _ _ => 0)).2.vector 0 =
      -compute_xi_norm_2 Real.exp (twoPoints ℝ) ∧
    (build_system Real.exp (twoPoints ℝ) (fun _ _ => 0) (fun _ => 0)
        (fun _ _ => 0)).2.vector (1 + 1) = -(compute_h Real.exp (twoPoints ℝ)).vector 1 :=
  build_system_entries Real.exp (twoPoints ℝ) (fun _ _ => 0) (fun _ => 0) (fun _ _ => 0) 0 1
    (by decide) (by decide)

end XiNormClaims

/-! ## The system without regularisation -/

section Singular

/-- A matrix with more columns than rows sends a nonzero vector to zero. -/
theorem exists_kernel_vector {K : Type} [Field K] (n : Nat)
    (M : Matrix (Fin n) (Fin (n + 1)) K) :
    ∃ v : Fin (n + 1) → K, v ≠ 0 ∧ Matrix.mulVec M v = 0 := by
  have hlt : Module.finrank K (Fin n → K) < Module.finrank K (Fin (n + 1) → K) := by
    simp
  have hker := LinearMap.ker_ne_bot_of_finrank_lt (f := Matrix.mulVecLin M) hlt
  obtain ⟨v, hv, hv0⟩ := (Submodule.ne_bot_iff _).mp hker
  exact ⟨v, hv0, by simpa using hv⟩

/-- A scaled Gram matrix `c • (Mᵀ * M)` of a matrix with more columns than rows is
singular, and no linear system with it has exactly one solution. -/
theorem gram_singular {K : Type} [Field K] (n : Nat) (M : Matrix (Fin n) (Fin (n + 1)) K)
    (c : K) (b : Fin (n + 1) → K) :
    Matrix.det (c • (Matrix.transpose M * M)) = 0 ∧
    ¬ ∃! x : Fin (n + 1) → K, Matrix.mulVec (c • (Matrix.transpose M * M)) x = b := by
  obtain ⟨v, hv0, hv⟩ := exists_kernel_vector n M
  have hAv : Matrix.mulVec (c • (Matrix.transpose M * M)) v = 0 := by
    rw [Matrix.smul_mulVec_assoc, ← Matrix.mulVec_mulVec, hv, Matrix.mulVec_zero, smul_zero]
  refine ⟨Matrix.exists_mulVec_eq_zero_iff.mp ⟨v, hv0, hAv⟩, ?_⟩
  rintro ⟨x, hx, huniq⟩
  have h2 : Matrix.mulVec (c • (Matrix.transpose M * M)) (x + v) = b := by
    rw [Matrix.mulVec_add, hAv, add_zero]
    exact hx
  have h3 := huniq (x + v) h2
  exact hv0 (by simpa using h3)

/-- Without regularisation the matrix `A` is the Gram matrix of `M = [h | HessianAll]`
divided by `N`. -/
theorem systemMatrix_eq_gram {K : Type} [Field K] (exp : K → K) (self : KernelExpFamilyImpl K)
    (memA : Nat → Nat → K) (memb : Nat → K) (memH : Nat → Nat → K)
    (hlam : self.m_lambda = 0) :
    systemMatrix exp self memA memb memH =
      (1 / (get_num_data self : K)) •
        (Matrix.transpose (stackedStatistics exp self memH) * stackedStatistics exp self memH) := by
  ext i j
  rw [Matrix.smul_apply, Matrix.mul_apply, smul_eq_mul]
  simp only [Matrix.transpose_apply, systemMatrix, stackedStatistics]
  rw [← Finset.sum_range (fun l =>
    (if (i : Nat) = 0 then (compute_h exp self).vector l
      else (kernel_hessian_all exp self memH).matrix l ((i : Nat) - 1)) *
    (if (j : Nat) = 0 then (compute_h exp self).vector l
      else (kernel_hessian_all exp self memH).matrix l ((j : Nat) - 1)))]
  obtain ⟨i, hi⟩ := i
  obtain ⟨j, hj⟩ := j
  simp only []
  rcases i with _ | i <;> rcases j with _ | j
  · rw [build_system_A_zero, hlam]
    simp only [if_true, zero_mul, add_zero]
    rw [div_eq_mul_inv, one_div, mul_comm]
    congr 1
    exact Finset.sum_congr rfl (fun l _ => by ring)
  · rw [build_system_A_row exp self memA memb memH j (by omega), hlam]
    simp only [if_true, Nat.succ_ne_zero, if_false, Nat.add_sub_cancel, zero_mul, add_zero]
    rw [div_eq_mul_inv, one_div, mul_comm]
    congr 1
    refine Finset.sum_congr rfl (fun l hl => ?_)
    rw [kernel_hessian_all_symm exp self memH j l (by omega) (Finset.mem_range.mp hl), mul_comm]
  · rw [build_system_A_col exp self memA memb memH i (by omega),
      build_system_A_row exp self memA memb memH i (by omega), hlam]
    simp only [if_true, Nat.succ_ne_zero, if_false, Nat.add_sub_cancel, zero_mul, add_zero]
    rw [div_eq_mul_inv, one_div, mul_comm]
    congr 1
    refine Finset.sum_congr rfl (fun l hl => ?_)
    rw [kernel_hessian_all_symm exp self memH i l (by omega) (Finset.mem_range.mp hl)]
  · rw [build_system_A_block exp self memA memb memH i j (by omega) (by omega), hlam]
    simp only [Nat.succ_ne_zero, if_false, Nat.add_sub_cancel, zero_mul, add_zero]
    rw [div_eq_mul_inv, one_div, mul_comm]
    congr 1
    refine Finset.sum_congr rfl (fun l hl => ?_)
    rw [kernel_hessian_all_symm exp self memH i l (by omega) (Finset.mem_range.mp hl)]

/-- C18: when `lambda = 0` the matrix `A` of `build_system` equals `(1/N) * Mᵀ * M`
for the `ND × (ND+1)` matrix `M = [h | HessianAll]`; hence `det A = 0` and
`A * alpha_beta = b` does not have exactly one solution. -/
theorem build_system_singular_without_regularisation {K : Type} [Field K] (exp : K → K)
    (self : KernelExpFamilyImpl K) (memA : Nat → Nat → K) (memb : Nat → K)
    (memH : Nat → Nat → K) (hlam : self.m_lambda = 0) :
    systemMatrix exp self memA memb memH =
      (1 / (get_num_data self : K)) •
        (Matrix.transpose (stackedStatistics exp self memH) *
          stackedStatistics exp self memH) ∧
    Matrix.det (systemMatrix exp self memA memb memH) = 0 ∧
    ¬ ∃! x, Matrix.mulVec (systemMatrix exp self memA memb memH) x =
      systemRhs exp self memA memb memH := by
  have h := systemMatrix_eq_gram exp self memA memb memH hlam
  refine ⟨h, ?_⟩
  rw [h]
  exact gram_singular _ (stackedStatistics exp self memH) _ _

end Singular

/-! ## The fit on the two-point training set -/

section TwoPointFit

/-- Entry `b*D + j` of `compute_h()`. -/
theorem compute_h_entry {K : Type} [Field K] (exp : K → K) (self : KernelExpFamilyImpl K)
    (b j : Nat) (hb : b < get_num_data self) (hj : j < get_num_dimensions self) :
    (compute_h exp self).vector (b * get_num_dimensions self + j) =
      (∑ a ∈ range (get_num_data self), ∑ i ∈ range (get_num_dimensions self),
        (kernel_dx_dx_dy exp self a b).matrix i j) / (get_num_data self : K) := by
  simp only [compute_h]
  rw [compute_h_accumulator exp self b j hb hj]

/-- The matrix of all Hessians of the two-point training set is the identity. -/
theorem twoPointsFit_hessian_all (lam : ℝ) (ab : Nat → ℝ) (memH : Nat → Nat → ℝ) :
    (kernel_hessian_all Real.exp (twoPointsFit lam ab) memH).matrix 0 0 = 1 ∧
    (kernel_hessian_all Real.exp (twoPointsFit lam ab) memH).matrix 0 1 = 0 ∧
    (kernel_hessian_all Real.exp (twoPointsFit lam ab) memH).matrix 1 0 = 0 ∧
    (kernel_hessian_all Real.exp (twoPointsFit lam ab) memH).matrix 1 1 = 1 := by
  have h00 := kernel_hessian_all_entry Real.exp (twoPointsFit lam ab) memH 0 0 0 0
    Nat.zero_lt_two Nat.zero_lt_two Nat.zero_lt_one Nat.zero_lt_one
  have h01 := kernel_hessian_all_entry Real.exp (twoPointsFit lam ab) memH 0 1 0 0
    Nat.zero_lt_two Nat.one_lt_two Nat.zero_lt_one Nat.zero_lt_one
  have h10 := kernel_hessian_all_entry Real.exp (twoPointsFit lam ab) memH 1 0 0 0
    Nat.one_lt_two Nat.zero_lt_two Nat.zero_lt_one Nat.zero_lt_one
  have h11 := kernel_hessian_all_entry Real.exp (twoPointsFit lam ab) memH 1 1 0 0
    Nat.one_lt_two Nat.one_lt_two Nat.zero_lt_one Nat.zero_lt_one
  refine ⟨?_, ?_, ?_, ?_⟩
  · refine h00.trans ?_
    simp [kernel_hessian, diagonalAdd, vsum, get_num_dimensions, twoPointsFit,
      SGMatrix.get_column_vector]
  · refine h01.trans ?_
    simp [kernel_hessian, diagonalAdd, vsum, get_num_dimensions, twoPointsFit,
      SGMatrix.get_column_vector]
    ring
  · refine h10.trans ?_
    simp [kernel_hessian, diagonalAdd, vsum, get_num_dimensions, twoPointsFit,
      SGMatrix.get_column_vector]
    ring
  · refine h11.trans ?_
    simp [kernel_hessian, diagonalAdd, vsum, get_num_dimensions, twoPointsFit,
      SGMatrix.get_column_vector]

/-- The vector `h` of the two-point training set is `(-e, e)` with `e = exp(-1/2)`. -/
theorem twoPointsFit_compute_h (lam : ℝ) (ab : Nat → ℝ) :
    (compute_h Real.exp (twoPointsFit lam ab)).vector 0 = -Real.exp (-1 / 2) ∧
    (compute_h Real.exp (twoPointsFit lam ab)).vector 1 = Real.exp (-1 / 2) := by
  have h0 := compute_h_entry Real.exp (twoPointsFit lam ab) 0 0 Nat.zero_lt_two
    Nat.zero_lt_one
  have h1 := compute_h_entry Real.exp (twoPointsFit lam ab) 1 0 Nat.one_lt_two
    Nat.zero_lt_one
  constructor
  · refine h0.trans ?_
    simp [kernel_dx_dx_dy, rowwiseSub, vsum, get_num_dimensions, get_num_data, twoPointsFit,
      SGMatrix.get_column_vector, Finset.sum_range_succ]
    ring
  · refine h1.trans ?_
    simp [kernel_dx_dx_dy, rowwiseSub, vsum, get_num_dimensions, get_num_data, twoPointsFit,
      SGMatrix.get_column_vector, Finset.sum_range_succ]

/-- The scalar `xi_norm_2` of the two-point training set is `(3 - 2e)/2`. -/
theorem twoPointsFit_xi_norm_2 (lam : ℝ) (ab : Nat → ℝ) :
    compute_xi_norm_2 Real.exp (twoPointsFit lam ab) = (3 - 2 * Real.exp (-1 / 2)) / 2 := by
  rw [compute_xi_norm_2_eq_sum]
  have hmul : index_mul ((get_num_data (twoPointsFit lam ab) : Nat) : Int)
      ((get_num_data (twoPointsFit lam ab) : Nat) : Int) = 4 := by
    have hN : ((get_num_data (twoPointsFit lam ab) : Nat) : Int) = 2 := rfl
    rw [hN]
    norm_num [index_mul]
  rw [hmul]
  simp [kernel_dx_dx_dy_dy, rowwiseSub, colwiseSub, diagonalAdd, diagonalSub, vsum,
    get_num_dimensions, get_num_data, twoPointsFit, SGMatrix.get_column_vector,
    Finset.sum_range_succ]
  ring

/-- The linear system of the two-point training set, entry by entry, with
`e = exp(-1/2)`. -/
theorem twoPointsFit_system (lam : ℝ) (ab : Nat → ℝ) (memA : Nat → Nat → ℝ) (memb : Nat → ℝ)
    (memH : Nat → Nat → ℝ) :
    (build_system Real.exp (twoPointsFit lam ab) memA memb memH).1.matrix 0 0 =
      Real.exp (-1 / 2) ^ 2 + lam * ((3 - 2 * Real.exp (-1 / 2)) / 2) ∧
    (build_system Real.exp (twoPointsFit lam ab) memA memb memH).1.matrix 0 1 =
      -((1 / 2 + lam) * Real.exp (-1 / 2)) ∧
    (build_system Real.exp (twoPointsFit lam ab) memA memb memH).1.matrix 0 2 =
      (1 / 2 + lam) * Real.exp (-1 / 2) ∧
    (build_system Real.exp (twoPointsFit lam ab) memA memb memH).1.matrix 1 0 =
      -((1 / 2 + lam) * Real.exp (-1 / 2)) ∧
    (build_system Real.exp (twoPointsFit lam ab) memA memb memH).1.matrix 1 1 = 1 / 2 + lam ∧
    (build_system Real.exp (twoPointsFit lam ab) memA memb memH).1.matrix 1 2 = 0 ∧
    (build_system Real.exp (twoPointsFit lam ab) memA memb memH).1.matrix 2 0 =
      (1 / 2 + lam) * Real.exp (-1 / 2) ∧
    (build_system Real.exp (twoPointsFit lam ab) memA memb memH).1.matrix 2 1 = 0 ∧
    (build_system Real.exp (twoPointsFit lam ab) memA memb memH).1.matrix 2 2 = 1 / 2 + lam ∧
    (build_system Real.exp (twoPointsFit lam ab) memA memb memH).2.vector 0 =
      -((3 - 2 * Real.exp (-1 / 2)) / 2) ∧
    (build_system Real.exp (twoPointsFit lam ab) memA memb memH).2.vector 1 =
      Real.exp (-1 / 2) ∧
    (build_system Real.exp (twoPointsFit lam ab) memA memb memH).2.vector 2 =
      -Real.exp (-1 / 2) := by
  obtain ⟨H00, H01, H10, H11⟩ := twoPointsFit_hessian_all lam ab memH
  obtain ⟨h0, h1⟩ := twoPointsFit_compute_h lam ab
  have hxi := twoPointsFit_xi_norm_2 lam ab
  have hND : get_num_data (twoPointsFit lam ab) * get_num_dimensions (twoPointsFit lam ab) = 2 :=
    rfl
  have hN : (get_num_data (twoPointsFit lam ab) : ℝ) = 2 := by
    simp [get_num_data, twoPointsFit]
  have hl : (twoPointsFit lam ab).m_lambda = lam := rfl
  have a00 := build_system_A_zero Real.exp (twoPointsFit lam ab) memA memb memH
  have a01 := build_system_A_row Real.exp (twoPointsFit lam ab) memA memb memH 0
    Nat.zero_lt_two
  have a02 := build_system_A_row Real.exp (twoPointsFit lam ab) memA memb memH 1
    Nat.one_lt_two
  have a10 := build_system_A_col Real.exp (twoPointsFit lam ab) memA memb memH 0
    Nat.zero_lt_two
  have a20 := build_system_A_col Real.exp (twoPointsFit lam ab) memA memb memH 1
    Nat.one_lt_two
  have a11 := build_system_A_block Real.exp (twoPointsFit lam ab) memA memb memH 0 0
    Nat.zero_lt_two Nat.zero_lt_two
  have a12 := build_system_A_block Real.exp (twoPointsFit lam ab) memA memb memH 0 1
    Nat.zero_lt_two Nat.one_lt_two
  have a21 := build_system_A_block Real.exp (twoPointsFit lam ab) memA memb memH 1 0
    Nat.one_lt_two Nat.zero_lt_two
  have a22 := build_system_A_block Real.exp (twoPointsFit lam ab) memA memb memH 1 1
    Nat.one_lt_two Nat.one_lt_two
  have b0 := build_system_b_zero Real.exp (twoPointsFit lam ab) memA memb memH
  have b1 := build_system_b_succ Real.exp (twoPointsFit lam ab) memA memb memH 0
    Nat.zero_lt_two
  have b2 := build_system_b_succ Real.exp (twoPointsFit lam ab) memA memb memH 1
    Nat.one_lt_two
  rw [hND] at a00 a01 a02 a11 a12 a21 a22
  simp only [Finset.sum_range_succ, Finset.sum_range_zero, zero_add, H00, H01, H10, H11, h0,
    h1, hxi, hN, hl] at a00 a01 a02 a10 a20 a11 a12 a21 a22 b0 b1 b2
  refine ⟨?_, ?_, ?_, ?_, ?_, ?_, ?_, ?_, ?_, ?_, ?_, ?_⟩
  · rw [a00]; ring
  · rw [a01]; ring
  · rw [a02]; ring
  · rw [a10, a01]; ring
  · rw [a11]; ring
  · rw [a12]; ring
  · rw [a20, a02]; ring
  · rw [a21]; ring
  · rw [a22]; ring
  · rw [b0]
  · rw [b1]; ring
  · rw [b2]

/-- The value of `log_pdf` of the two-point training set at a one-dimensional query
`q`, with coefficients `ab`. -/
theorem twoPointsFit_log_pdf (lam : ℝ) (ab : Nat → ℝ) (q : ℝ) :
    log_pdf Real.exp (twoPointsFit lam ab) ⟨1, fun _ => q⟩ =
      ab 0 * ((Real.exp (-(q ^ 2) / 2) * (q ^ 2 - 1) +
          Real.exp (-((q - 1) ^ 2) / 2) * ((q - 1) ^ 2 - 1)) / 2) +
        (Real.exp (-(q ^ 2) / 2) * (0 - q) * ab 1 +
          Real.exp (-((q - 1) ^ 2) / 2) * (1 - q) * ab 2) := by
  rw [log_pdf_eq_sum]
  have hq : (-(q ^ 2)) = -((0 - q) ^ 2) := by ring
  have hq1 : (-((q - 1) ^ 2)) = -((1 - q) ^ 2) := by ring
  simp [kernel_dx_dx, kernel_dx, vsum, squaredNorm, get_num_dimensions, get_num_data,
    twoPointsFit, SGMatrix.get_column_vector, Finset.sum_range_succ]
  rw [hq, hq1]
  ring

/-- Bounds on `e = exp(-1/2)`: it is positive and at most `8/13`. -/
theorem exp_neg_half_bounds : 0 < Real.exp (-1 / 2) ∧ Real.exp (-1 / 2) ≤ 8 / 13 := by
  refine ⟨Real.exp_pos _, ?_⟩
  have h := Real.quadratic_le_exp_of_nonneg (show (0 : ℝ) ≤ 1 / 2 by norm_num)
  have h2 : Real.exp (-1 / 2) = (Real.exp (1 / 2))⁻¹ := by
    rw [← Real.exp_neg]
    congr 1
    ring
  rw [h2]
  have h3 : (13 / 8 : ℝ) ≤ Real.exp (1 / 2) := by
    have : (1 : ℝ) + 1 / 2 + (1 / 2) ^ 2 / 2 = 13 / 8 := by norm_num
    linarith
  have h4 : (0 : ℝ) < 13 / 8 := by norm_num
  calc (Real.exp (1 / 2))⁻¹ ≤ (13 / 8 : ℝ)⁻¹ := inv_anti₀ h4 h3
    _ = 8 / 13 := by norm_num

/-- The three equations of the two-point system determine the coefficients. -/
theorem two_point_equations_solved (e lam a b0 b1 : ℝ) (hlam : 0 < lam)
    (hne : (3 - 2 * e) / 2 - 2 * e ^ 2 ≠ 0)
    (E0 : (e ^ 2 + lam * ((3 - 2 * e) / 2)) * a + -((1 / 2 + lam) * e) * b0 +
      (1 / 2 + lam) * e * b1 = -((3 - 2 * e) / 2))
    (E1 : -((1 / 2 + lam) * e) * a + (1 / 2 + lam) * b0 + 0 * b1 = e)
    (E2 : (1 / 2 + lam) * e * a + 0 * b0 + (1 / 2 + lam) * b1 = -e) :
    a = -(1 / lam) ∧ b0 = -(e * (1 / lam - 1 / (1 / 2 + lam))) ∧
      b1 = e * (1 / lam - 1 / (1 / 2 + lam)) := by
  have hmu : (0 : ℝ) < 1 / 2 + lam := by linarith
  have hc1 : (1 / 2 + lam) * (1 / (1 / 2 + lam)) = 1 := mul_one_div_cancel hmu.ne'
  have hc2 : lam * (1 / lam) = 1 := mul_one_div_cancel hlam.ne'
  have hprod : ((3 - 2 * e) / 2 - 2 * e ^ 2) * (lam * a + 1) = 0 := by
    linear_combination E0 + e * E1 - e * E2
  have ha0 : lam * a + 1 = 0 := by
    rcases mul_eq_zero.mp hprod with h | h
    · exact absurd h hne
    · exact h
  have ha : a = -(1 / lam) := by
    apply mul_left_cancel₀ hlam.ne'
    linear_combination ha0 + hc2
  refine ⟨ha, ?_, ?_⟩
  · apply mul_left_cancel₀ hmu.ne'
    rw [ha] at E1
    linear_combination E1 - e * hc1
  · apply mul_left_cancel₀ hmu.ne'
    rw [ha] at E2
    linear_combination E2 + e * hc1

/-- The solution of the linear system of the two-point training set. -/
theorem twoPointsFit_solution (lam : ℝ) (ab : Nat → ℝ) (memA : Nat → Nat → ℝ)
    (memb : Nat → ℝ) (memH : Nat → Nat → ℝ) (hlam : 0 < lam)
    (hsolve : ∀ i, i < 3 → ∑ j ∈ range 3,
        (build_system Real.exp (twoPointsFit lam ab) memA memb memH).1.matrix i j * ab j =
      (build_system Real.exp (twoPointsFit lam ab) memA memb memH).2.vector i) :
    ab 0 = -(1 / lam) ∧
    ab 1 = -(Real.exp (-1 / 2) * (1 / lam - 1 / (1 / 2 + lam))) ∧
    ab 2 = Real.exp (-1 / 2) * (1 / lam - 1 / (1 / 2 + lam)) := by
  obtain ⟨a00, a01, a02, a10, a11, a12, a20, a21, a22, b0, b1, b2⟩ :=
    twoPointsFit_system lam ab memA memb memH
  have E0 := hsolve 0 (by norm_num)
  have E1 := hsolve 1 (by norm_num)
  have E2 := hsolve 2 (by norm_num)
  simp only [Finset.sum_range_succ, Finset.sum_range_zero, zero_add, a00, a01, a02, a10, a11,
    a12, a20, a21, a22, b0, b1, b2] at E0 E1 E2
  obtain ⟨he0, he1⟩ := exp_neg_half_bounds
  have hne : (3 - 2 * Real.exp (-1 / 2)) / 2 - 2 * Real.exp (-1 / 2) ^ 2 ≠ 0 := by
    have : 0 < (3 - 2 * Real.exp (-1 / 2)) / 2 - 2 * Real.exp (-1 / 2) ^ 2 := by
      nlinarith [mul_le_mul he1 he1 he0.le (by norm_num : (0 : ℝ) ≤ 8 / 13)]
    exact ne_of_gt this
  exact two_point_equations_solved _ lam _ _ _ hlam hne E0 E1 E2

/-- The fitted log-density of the two-point training set is positive at the midpoint
and negative at `11`. -/
theorem two_point_values (e g k0 k1 t m : ℝ) (he0 : 0 < e) (he1 : e < 1) (hg : 0 < g)
    (hk0 : 0 < k0) (hk1 : 0 < k1) (hm : 0 < m) (hmt : m < t) :
    -t * ((k0 * (11 ^ 2 - 1) + k1 * ((11 - 1) ^ 2 - 1)) / 2) +
        (k0 * (0 - 11) * -(e * (t - m)) + k1 * (1 - 11) * (e * (t - m))) < 0 ∧
    0 < -t * ((g * ((1 / 2) ^ 2 - 1) + g * ((1 / 2 - 1) ^ 2 - 1)) / 2) +
        (g * (0 - 1 / 2) * -(e * (t - m)) + g * (1 - 1 / 2) * (e * (t - m))) := by
  have ht : 0 < t := lt_trans hm hmt
  have hd : 0 < t - m := sub_pos.mpr hmt
  have hed : e * (t - m) < t := by nlinarith [mul_pos he0 hm, mul_pos ht (sub_pos.mpr he1)]
  have hed0 : 0 < e * (t - m) := mul_pos he0 hd
  constructor
  · nlinarith [mul_pos hk0 (sub_pos.mpr hed), mul_pos hk0 ht, mul_pos hk1 ht,
      mul_pos hk1 hed0, mul_pos hk0 hed0]
  · nlinarith [mul_pos hg ht, mul_pos hg hed0]

/-- C15: on the two-point training set (`D = 1`, `N = 2`, points `0` and `1`,
`sigma = 2`) with any `lambda > 0`, if the stored coefficients solve
`A * alpha_beta = b` for the system of `build_system`, then `log_pdf` at the midpoint
`0.5` is strictly greater than `log_pdf` at `11`. -/
theorem midpoint_log_pdf_exceeds_far_point (lam : ℝ) (ab : Nat → ℝ) (memA : Nat → Nat → ℝ)
    (memb : Nat → ℝ) (memH : Nat → Nat → ℝ) (hlam : 0 < lam)
    (hsolve : ∀ i, i < 3 → ∑ j ∈ range 3,
        (build_system Real.exp (twoPointsFit lam ab) memA memb memH).1.matrix i j * ab j =
      (build_system Real.exp (twoPointsFit lam ab) memA memb memH).2.vector i) :
    log_pdf Real.exp (twoPointsFit lam ab) ⟨1, fun _ => 11⟩ <
      log_pdf Real.exp (twoPointsFit lam ab) ⟨1, fun _ => 1 / 2⟩ := by
  obtain ⟨ha, hb0, hb1⟩ := twoPointsFit_solution lam ab memA memb memH hlam hsolve
  obtain ⟨he0, he1⟩ := exp_neg_half_bounds
  have hmid : (-(((1 : ℝ) / 2 - 1) ^ 2) / 2) = -((1 / 2 : ℝ) ^ 2) / 2 := by norm_num
  have hv := two_point_values (Real.exp (-1 / 2)) (Real.exp (-((1 / 2 : ℝ) ^ 2) / 2))
    (Real.exp (-((11 : ℝ) ^ 2) / 2)) (Real.exp (-(((11 : ℝ) - 1) ^ 2) / 2)) (1 / lam)
    (1 / (1 / 2 + lam)) he0 (by linarith) (Real.exp_pos _) (Real.exp_pos _) (Real.exp_pos _)
    (by positivity) (one_div_lt_one_div_of_lt hlam (by linarith))
  rw [twoPointsFit_log_pdf, twoPointsFit_log_pdf, ha, hb0, hb1, hmid]
  exact lt_trans hv.1 hv.2

/-- Instance of `midpoint_log_pdf_exceeds_far_point`: `lambda = 1`, for which the
solution of the system is `(-1, -e/3, e/3)` with `e = exp(-1/2)`. -/
theorem midpoint_log_pdf_exceeds_far_point_witness :
    log_pdf Real.exp
        (twoPointsFit 1 (fun i => if i = 0 then -1 else if i = 1 then -(Real.exp (-1 / 2) / 3)
          else Real.exp (-1 / 2) / 3)) ⟨1, fun _ => 11⟩ <
      log_pdf Real.exp
        (twoPointsFit 1 (fun i => if i = 0 then -1 else if i = 1 then -(Real.exp (-1 / 2) / 3)
          else Real.exp (-1 / 2) / 3)) ⟨1, fun _ => 1 / 2⟩ :=
  midpoint_log_pdf_exceeds_far_point 1
    (fun i => if i = 0 then -1 else if i = 1 then -(Real.exp (-1 / 2) / 3)
      else Real.exp (-1 / 2) / 3)
    (fun _ _ => 0) (fun _ => 0) (fun _ _ => 0) one_pos
    (by
      obtain ⟨a00, a01, a02, a10, a11, a12, a20, a21, a22, b0, b1, b2⟩ :=
        twoPointsFit_system 1
          (fun i => if i = 0 then -1 else if i = 1 then -(Real.exp (-1 / 2) / 3)
            else Real.exp (-1 / 2) / 3)
          (fun _ _ => 0) (fun _ => 0) (fun _ _ => 0)
      intro i hi
      interval_cases i
      · simp only [Finset.sum_range_succ, Finset.sum_range_zero, zero_add, a00, a01, a02, b0]
        norm_num
        ring
      · simp only [Finset.sum_range_succ, Finset.sum_range_zero, zero_add, a10, a11, a12, b1]
        norm_num
        ring
      · simp only [Finset.sum_range_succ, Finset.sum_range_zero, zero_add, a20, a21, a22, b2]
        norm_num
        ring)

/-- Instance of `build_system_singular_without_regularisation`: the two-point
training set with `lambda = 0`. -/
theorem build_system_singular_without_regularisation_witness :
    systemMatrix Real.exp (twoPointsFit (0 : ℝ) (fun _ => 0)) (fun _ _ => 0) (fun _ => 0)
        (fun _ _ => 0) =
      (1 / (get_num_data (twoPointsFit (0 : ℝ) (fun _ => 0)) : ℝ)) •
        (Matrix.transpose
            (stackedStatistics Real.exp (twoPointsFit (0 : ℝ) (fun _ => 0)) (fun _ _ => 0)) *
          stackedStatistics Real.exp (twoPointsFit (0 : ℝ) (fun _ => 0)) (fun _ _ => 0)) ∧
    Matrix.det (systemMatrix Real.exp (twoPointsFit (0 : ℝ) (fun _ => 0)) (fun _ _ => 0)
      (fun _ => 0) (fun _ _ => 0)) = 0 ∧
    ¬ ∃! x, Matrix.mulVec (systemMatrix Real.exp (twoPointsFit (0 : ℝ) (fun _ => 0))
        (fun _ _ => 0) (fun _ => 0) (fun _ _ => 0)) x =
      systemRhs Real.exp (twoPointsFit (0 : ℝ) (fun _ => 0)) (fun _ _ => 0) (fun _ => 0)
        (fun _ _ => 0) :=
  build_system_singular_without_regularisation Real.exp (twoPointsFit (0 : ℝ) (fun _ => 0))
    (fun _ _ => 0) (fun _ => 0) (fun _ _ => 0) rfl

end TwoPointFit

end Shogun
